import Mathlib

/-!
Verification of the HSI-Classification tools module (src/tools.py).

The grid utilities of the repository are embedded shallowly: numpy 2-D
arrays become row-major lists of rows, flattening is list join, fancy
index assignment becomes a masked rewrite of a flat list, and fallible
numpy operations (out-of-range indexing, shape mismatches in vstack)
return Option, with none standing for a raised error.  `np.unique`
returns the sorted distinct values with their occurrence counts, and
`argsort` is modelled as the stable ascending argsort (ties broken by
original position), realised with insertion sort on indices.
-/

namespace Tools

/-- A 2-D integer grid: a row-major list of rows, modelling a numpy 2-D array. -/
abbrev Grid := List (List Int)

/-- Row-major flattening of a grid, modelling numpy flatten. -/
def flatten (g : Grid) : List Int := g.flatten

/-- Number of columns of a grid (length of its first row), modelling shape[1]. -/
def cols (g : Grid) : Nat := (g.headD []).length

/-- Reshape a flat list into r rows of c entries, modelling numpy reshape((r, c)). -/
def reshape (l : List Int) (r c : Nat) : Grid :=
  match r with
  | 0 => []
  | r' + 1 => l.take c :: reshape (l.drop c) r' c

/-- Statement that every row of the grid has length c. -/
def rectW (g : Grid) (c : Nat) : Prop := ∀ row ∈ g, row.length = c

instance (g : Grid) (c : Nat) : Decidable (rectW g c) :=
  List.decidableBAll _ g

/-- Statement that the grid is rectangular: every row as long as the first. -/
def rect (g : Grid) : Prop := rectW g (cols g)

instance (g : Grid) : Decidable (rect g) :=
  inferInstanceAs (Decidable (rectW g (cols g)))

/-- Force to 0 every entry of rp whose position holds 0 in labF, modelling the
assignment res[np.argwhere(labels.flatten() == 0).flatten()] = 0.  The result is
none when some zero position of labF is out of range for rp, as numpy raises
IndexError there. -/
def forceZeros (labF rp : List Int) : Option (List Int) :=
  if ((List.range labF.length).filter (fun k => labF.getD k 1 == 0)).all
      (fun k => decide (k < rp.length)) then
    some ((List.range rp.length).map (fun k => if labF.getD k 1 = 0 then 0 else rp.getD k 0))
  else none

/-- Set cur to newv at every position where orig holds v, modelling
res[np.argwhere(orig == v).flatten()] = newv for equal-length flat arrays. -/
def maskAssign (orig cur : List Int) (v newv : Int) : List Int :=
  List.zipWith (fun o x => if o = v then newv else x) orig cur

/-- Sorted distinct values of a flat list, modelling np.unique. -/
def uniqueVals (xs : List Int) : List Int :=
  (xs.insertionSort (fun a b => a ≤ b)).dedup

/-- Occurrence counts of the values u inside xs, modelling the counts returned by
np.unique(xs, return_counts=True) when u = uniqueVals xs. -/
def countsOf (u xs : List Int) : List Nat :=
  u.map (fun v => xs.count v)

/-- Comparison of indices i and j by the values a[i], a[j], with ties broken by
index order; this is the sort key of a stable ascending argsort of a. -/
def argRel (a : List Nat) (i j : Nat) : Prop :=
  a.getD i 0 < a.getD j 0 ∨ (a.getD i 0 = a.getD j 0 ∧ i ≤ j)

instance (a : List Nat) : DecidableRel (argRel a) := fun i j => by
  unfold argRel; exact inferInstance

instance (a : List Nat) : IsTotal Nat (argRel a) := by
  constructor; intro i j; unfold argRel; omega

instance (a : List Nat) : IsTrans Nat (argRel a) := by
  constructor; intro i j k; unfold argRel; omega

/-- Stable ascending argsort of a, modelling numpy argsort of a small counts
array: the list of indices 0..len-1 ordered by their value in a, ties kept in
original position order. -/
def argsort (a : List Nat) : List Nat :=
  (List.range a.length).insertionSort (argRel a)

/-- Number of loop indices k below n whose literal integer value occurs among the
distinct prediction values l; this is the running value of the counter j of
compute_labels_correspondence after iterations 0..n-1. -/
def mcount (l : List Int) (n : Nat) : Nat :=
  ((List.range n).filter (fun k : Nat => decide ((k : Int) ∈ l))).length

/-- Canonical renumbering applied to one label value after n loop iterations of
compute_labels_correspondence: if v is among the first n label values in count
rank order it becomes its rank plus one, otherwise it keeps its raw value. -/
def canonL (l2 : List Int) (c2 : List Nat) (n : Nat) (v : Int) : Int :=
  match (List.range n).find? (fun i => l2.getD (c2.getD i 0) 0 == v) with
  | some i => (i : Int) + 1
  | none => v

/-- Canonical renumbering applied to one prediction value once m cluster values
have been matched: the j-th matched value (in count rank order) becomes
j + offset + 1, unmatched values keep their raw value. -/
def canonP (l : List Int) (c : List Nat) (offset : Int) (m : Nat) (v : Int) : Int :=
  match (List.range m).find? (fun j => l.getD (c.getD j 0) 0 == v) with
  | some j => (j : Int) + offset + 1
  | none => v

/-- One iteration of the main loop of compute_labels_correspondence, at loop
index i, over the state (res_preds, res_labels, j).  Indexing c[j], l[cj],
c2[i] or l2[c2i] out of range models a numpy IndexError and yields none. -/
def clcStep (predF labF l l2 : List Int) (c1 c2 : List Nat) (offset : Int)
    (st : List Int × List Int × Nat) (i : Nat) : Option (List Int × List Int × Nat) :=
  let rp := st.1
  let rl := st.2.1
  let j := st.2.2
  let predPart : Option (List Int × Nat) :=
    if (i : Int) ∈ l then
      match (c1[j]?) with
      | none => none
      | some cj =>
        match (l[cj]?) with
        | none => none
        | some v => some (maskAssign predF rp v ((j : Int) + offset + 1), j + 1)
    else some (rp, j)
  match predPart with
  | none => none
  | some (rp2, j2) =>
    match (c2[i]?) with
    | none => none
    | some c2i =>
      match (l2[c2i]?) with
      | none => none
      | some v2 => some (rp2, maskAssign labF rl v2 ((i : Int) + 1), j2)

/-- Embedding of compute_labels_correspondence from src/tools.py: ranks the
distinct values of labels and preds by occurrence count, renumbers both grids
onto the canonical id space, forces predictions to 0 where the original label
is 0, and reshapes both results back to the input shapes.  Returns
(res_labels, res_preds); none models a raised IndexError. -/
def compute_labels_correspondence (labels preds : Grid) (n_cluster : Nat) :
    Option (Grid × Grid) :=
  let labF := flatten labels
  let predF := flatten preds
  let l2 := uniqueVals labF
  let c2 := argsort (countsOf l2 labF)
  let l := uniqueVals predF
  let c1 := argsort (countsOf l predF)
  let offset : Int := (l2.length : Int) - (l.length : Int)
  match (List.range n_cluster).foldlM (clcStep predF labF l l2 c1 c2 offset) (predF, labF, 0) with
  | none => none
  | some (rp, _rl, _) =>
    match forceZeros labF rp with
    | none => none
    | some rp2 =>
      some (reshape _rl labels.length (cols labels), reshape rp2 preds.length (cols preds))

/-- Embedding of remove_unclassified from src/tools.py: increment every
prediction by one, zero the positions whose label is 0, reshape back to the
shape of preds.  Works on copies, the inputs are left untouched. -/
def remove_unclassified (preds labels : Grid) : Option Grid :=
  match forceZeros (flatten labels) ((flatten preds).map (fun x => x + 1)) with
  | none => none
  | some rp => some (reshape rp preds.length (cols preds))

/-- A grid of possibly uninitialised cells, modelling the result of np.empty:
none is a cell that was never written. -/
abbrev OGrid := List (List (Option Int))

/-- Read the cell (i, j); none for an uninitialised or out-of-range cell. -/
def getCell (g : OGrid) (i j : Nat) : Option Int :=
  (g.getD i []).getD j none

/-- Write v at the cell (i, j); none models the IndexError numpy raises when the
position is outside the grid. -/
def setCell (g : OGrid) (i j : Nat) (v : Option Int) : Option OGrid :=
  if i < g.length ∧ j < (g.getD i []).length then
    some (g.set i ((g.getD i []).set j v))
  else none

/-- Embedding of copy_without_outlier from src/tools.py: scan the grid in
row-major order, skip every position listed in outlier_pos, and return the
retained values together with their positions. -/
def copy_without_outlier (X : Grid) (outlier_pos : List (Nat × Nat)) :
    List Int × List (Nat × Nat) :=
  let kept := ((List.range X.length).flatMap
      (fun i => (List.range (cols X)).map (fun j => (i, j)))).filter
      (fun p => !decide (p ∈ outlier_pos))
  (kept.map (fun p => (X.getD p.1 []).getD p.2 0), kept)

/-- Embedding of rebuild_data_with_outliers from src/tools.py: allocate an
uninitialised r-by-c grid, write each retained sample value at its recorded
position, then write 0 at every outlier position (after, hence over, the sample
writes).  none models a raised IndexError. -/
def rebuild_data_with_outliers (salinas_preds : List Int) (X_positions : List (Nat × Nat))
    (outlier_pos : List (Nat × Nat)) (r c : Nat) : Option OGrid :=
  let init : OGrid := List.replicate r (List.replicate c none)
  match (List.range salinas_preds.length).foldlM
      (fun g i =>
        match (X_positions[i]?) with
        | none => none
        | some p => setCell g p.1 p.2 (some (salinas_preds.getD i 0))) init with
  | none => none
  | some g1 => outlier_pos.foldlM (fun g p => setCell g p.1 p.2 (some 0)) g1

/-- A feature row whose cells may be uninitialised np.empty garbage. -/
abbrev Row := List (Option Int)

/-- A 2-D numpy array of feature rows together with its column count; the
explicit width lets vstack check shape compatibility even for empty stacks. -/
structure NArr where
  width : Nat
  rows : List Row
  deriving DecidableEq

/-- Embedding of np.vstack on two row stacks: widths must agree, otherwise the
call raises and the model yields none. -/
def vstack (a b : NArr) : Option NArr :=
  if a.width = b.width then some ⟨a.width, a.rows ++ b.rows⟩ else none

/-- Embedding of np.empty(size) as seen by vstack: a 1-D shape (w) is one
uninitialised row of width w, a 2-D shape (r, w) is r uninitialised rows; any
other rank cannot be vstacked with 2-D data and yields none. -/
def npEmpty (size : List Nat) : Option NArr :=
  match size with
  | [w] => some ⟨w, [List.replicate w none]⟩
  | [r, w] => some ⟨w, List.replicate r (List.replicate w none)⟩
  | _ => none

/-- Fancy indexing X[idx] on the rows of X; none models the IndexError raised on
an out-of-range index. -/
def takeRows (X : NArr) (idx : List Nat) : Option NArr :=
  match idx.mapM (fun k => X.rows[k]?) with
  | none => none
  | some rows => some ⟨X.width, rows⟩

/-- Number of samples a class of cnt members sends to the train side, modelling
int(count[cluster] * train_split) for a non-negative split fraction. -/
def trainCount (cnt : Nat) (train_split : ℚ) : Nat :=
  (⌊(cnt : ℚ) * train_split⌋).toNat

/-- One iteration of split_x_train_test over the state
(x_train, x_test, y_train, y_test, sum). -/
def splitStep (X_shuffle : NArr) (count : List Nat) (labels_argsort : List Nat)
    (train_split : ℚ) (st : NArr × NArr × List Nat × List Nat × Nat) (cluster : Nat) :
    Option (NArr × NArr × List Nat × List Nat × Nat) :=
  match (count[cluster]?) with
  | none => none
  | some cnt =>
    let idx := trainCount cnt train_split
    match takeRows X_shuffle ((labels_argsort.drop st.2.2.2.2).take idx) with
    | none => none
    | some trRows =>
      match takeRows X_shuffle ((labels_argsort.drop (st.2.2.2.2 + idx)).take (cnt - idx)) with
      | none => none
      | some teRows =>
        match vstack st.1 trRows with
        | none => none
        | some xtr =>
          match vstack st.2.1 teRows with
          | none => none
          | some xte =>
            some (xtr, xte,
              st.2.2.1 ++ List.replicate idx cluster,
              st.2.2.2.1 ++ List.replicate (cnt - idx) cluster,
              st.2.2.2.2 + cnt)

/-- Embedding of split_x_train_test from src/tools.py: seed the train and test
stacks with np.empty(size), then for each class take the first
int(count * train_split) rows of its contiguous block for train and the rest
for test, accumulating the class ids into y_train and y_test. -/
def split_x_train_test (X_shuffle : NArr) (count : List Nat) (labels : List Nat)
    (labels_argsort : List Nat) (size : List Nat) (train_split : ℚ) :
    Option (NArr × NArr × List Nat × List Nat) :=
  match npEmpty size with
  | none => none
  | some xtr0 =>
    match npEmpty size with
    | none => none
    | some xte0 =>
      match labels.foldlM (splitStep X_shuffle count labels_argsort train_split)
          (xtr0, xte0, [], [], 0) with
      | none => none
      | some st => some (st.1, st.2.1, st.2.2.1, st.2.2.2.1)

/-- Flat positions at which y holds the class id cl, modelling
np.argwhere(y_labels == cluster).flatten(). -/
def classIdx (y : List Int) (cl : Int) : List Nat :=
  (List.range y.length).filter (fun k => y.getD k 0 == cl)

/-- Embedding of calculate_mean_score from src/tools.py: for each class select
the samples labelled with it, apply the external scorer, sum the per-class
scores, and divide by the number of classes.  The scorer is an abstract
capability; none models the IndexError of x_labels[idxs] on a too-short x, or
the ZeroDivisionError on an empty class list. -/
def calculate_mean_score {F : Type} (labels : List Int) (x_labels : List F)
    (y_labels : List Int) (score : List F → List Int → ℚ) : Option ℚ :=
  match labels.foldlM (fun acc cluster =>
      match (classIdx y_labels cluster).mapM (fun k => x_labels[k]?) with
      | none => none
      | some xs =>
        some (acc + score xs ((classIdx y_labels cluster).map (fun k => y_labels.getD k 0))))
      (0 : ℚ) with
  | none => none
  | some total =>
    if labels.length = 0 then none else some (total / labels.length)


/-- Contract of np.argsort on a counts array: the result is some permutation of
the indices 0..len-1 that puts the values of a in ascending order.  The
source calls np.argsort() with its default kind (quicksort/introsort), which
guarantees nothing about the relative order of indices holding equal values;
this predicate therefore holds for every outcome the library may produce, and
the deterministic argsort above is one admissible outcome among them. -/
def isArgsortOf (a : List Nat) (c : List Nat) : Prop :=
  c.length = a.length ∧ c.Nodup ∧ (∀ k ∈ c, k < a.length) ∧
  List.Sorted (fun i j => a.getD i 0 ≤ a.getD j 0) c

instance (a c : List Nat) : Decidable (isArgsortOf a c) := by
  unfold isArgsortOf
  exact instDecidableAnd

/-- The body of compute_labels_correspondence with the two np.argsort outcomes
passed in as parameters instead of computed by the deterministic model: running
it on the model's own argsort results gives back compute_labels_correspondence,
and quantifying c1 and c2 over isArgsortOf describes every run the library
contract admits on a tied counts array. -/
def clc_with (labels preds : Grid) (n_cluster : Nat) (c1 c2 : List Nat) :
    Option (Grid × Grid) :=
  let labF := flatten labels
  let predF := flatten preds
  let l2 := uniqueVals labF
  let l := uniqueVals predF
  let offset : Int := (l2.length : Int) - (l.length : Int)
  match (List.range n_cluster).foldlM (clcStep predF labF l l2 c1 c2 offset) (predF, labF, 0) with
  | none => none
  | some (rp, _rl, _) =>
    match forceZeros labF rp with
    | none => none
    | some rp2 =>
      some (reshape _rl labels.length (cols labels), reshape rp2 preds.length (cols preds))

end Tools

namespace Tools

/-! Basic list access lemmas shared by the developments below. -/

theorem getD_range_map {α : Type} (f : Nat → α) (n k : Nat) (d : α) (h : k < n) :
    ((List.range n).map f).getD k d = f k := by
  have hlen : k < ((List.range n).map f).length := by
    simpa using h
  rw [List.getD_eq_getElem _ _ hlen]
  simp

theorem getD_map_lt {α β : Type} (l : List α) (f : α → β) (k : Nat) (d : β)
    (h : k < l.length) :
    (l.map f).getD k d = f (l[k]) := by
  have hlen : k < (l.map f).length := by simpa using h
  rw [List.getD_eq_getElem _ _ hlen]
  simp

theorem length_flatten_rectW (g : Grid) (c : Nat) (h : rectW g c) :
    (flatten g).length = g.length * c := by
  induction g with
  | nil => simp [flatten]
  | cons row g ih =>
    have hrow : row.length = c := h row (List.mem_cons_self _ _)
    have htail : rectW g c := fun r hr => h r (List.mem_cons_of_mem _ hr)
    simp only [flatten, List.flatten_cons, List.length_append, List.length_cons]
    rw [show (List.flatten g).length = (flatten g).length from rfl, ih htail, hrow]
    ring

theorem rect_flatten_length (g : Grid) (h : rect g) :
    (flatten g).length = g.length * cols g :=
  length_flatten_rectW g (cols g) h

theorem flatten_reshape (l : List Int) (r c : Nat) (h : l.length = r * c) :
    flatten (reshape l r c) = l := by
  induction r generalizing l with
  | zero =>
    have : l = [] := List.eq_nil_of_length_eq_zero (by omega)
    simp [reshape, flatten, this]
  | succ r ih =>
    have hc : c ≤ l.length := by
      rw [h, Nat.succ_mul]; omega
    have hdrop : (l.drop c).length = r * c := by
      rw [List.length_drop, h, Nat.succ_mul]; omega
    rw [show reshape l (r + 1) c = l.take c :: reshape (l.drop c) r c from rfl]
    rw [show flatten (l.take c :: reshape (l.drop c) r c)
          = l.take c ++ flatten (reshape (l.drop c) r c) from rfl]
    rw [ih (l.drop c) hdrop]
    exact List.take_append_drop c l

theorem forceZeros_eq (labF rp : List Int)
    (h : ∀ k, k < labF.length → labF.getD k 1 = 0 → k < rp.length) :
    forceZeros labF rp =
      some ((List.range rp.length).map
        (fun k => if labF.getD k 1 = 0 then 0 else rp.getD k 0)) := by
  unfold forceZeros
  rw [if_pos]
  rw [List.all_eq_true]
  intro x hx
  rw [List.mem_filter] at hx
  obtain ⟨hx1, hx2⟩ := hx
  rw [List.mem_range] at hx1
  rw [beq_iff_eq] at hx2
  exact decide_eq_true (h x hx1 hx2)

/-- C2: for every pair of equally-shaped grids preds and labels, the output of
remove_unclassified is 0 at every position where labels is 0 and the input
prediction value plus 1 everywhere else; the embedding is a pure function of
its arguments, matching the source working on a copy of preds. -/
theorem remove_unclassified_spec (preds labels : Grid)
    (hrect : rect preds)
    (hlen : (flatten labels).length = (flatten preds).length) :
    ∃ out, remove_unclassified preds labels = some out ∧
      (flatten out).length = (flatten preds).length ∧
      ∀ k, k < (flatten preds).length →
        (flatten out).getD k 0 =
          if (flatten labels).getD k 0 = 0 then 0 else (flatten preds).getD k 0 + 1 := by
  have hmlen : ((flatten preds).map (fun x => x + 1)).length = (flatten preds).length :=
    List.length_map _ _
  have hfz := forceZeros_eq (flatten labels) ((flatten preds).map (fun x => x + 1))
    (fun k hk _ => by rw [hmlen]; omega)
  unfold remove_unclassified
  rw [hfz]
  set res := (List.range ((flatten preds).map (fun x => x + 1)).length).map
    (fun k => if (flatten labels).getD k 1 = 0 then 0
      else ((flatten preds).map (fun x => x + 1)).getD k 0) with hres
  have hreslen : res.length = (flatten preds).length := by
    rw [hres]; simp
  have hflat : flatten (reshape res preds.length (cols preds)) = res := by
    apply flatten_reshape
    rw [hreslen]
    exact rect_flatten_length preds hrect
  refine ⟨reshape res preds.length (cols preds), rfl, ?_, ?_⟩
  · rw [hflat, hreslen]
  intro k hk
  rw [hflat, hres]
  rw [getD_range_map _ _ _ _ (by rw [hmlen]; exact hk)]
  have hkl : k < (flatten labels).length := by omega
  have h1 : (flatten labels).getD k 1 = (flatten labels).getD k 0 := by
    rw [List.getD_eq_getElem _ _ hkl, List.getD_eq_getElem _ _ hkl]
  rw [h1]
  by_cases hz : (flatten labels).getD k 0 = 0
  · rw [if_pos hz, if_pos hz]
  · rw [if_neg hz, if_neg hz]
    rw [getD_map_lt _ _ _ _ hk]
    rw [List.getD_eq_getElem _ _ hk]

/-- C2 witness: the value theorem applied at a concrete pair of grids. -/
theorem remove_unclassified_spec_witness :
    rect ([[0, 1], [2, 3]] : Grid) ∧
    (flatten ([[0, 5], [0, 2]] : Grid)).length = (flatten ([[0, 1], [2, 3]] : Grid)).length ∧
    ∃ out, remove_unclassified [[0, 1], [2, 3]] [[0, 5], [0, 2]] = some out ∧
      (flatten out).length = (flatten ([[0, 1], [2, 3]] : Grid)).length ∧
      ∀ k, k < (flatten ([[0, 1], [2, 3]] : Grid)).length →
        (flatten out).getD k 0 =
          if (flatten ([[0, 5], [0, 2]] : Grid)).getD k 0 = 0 then 0
          else (flatten ([[0, 1], [2, 3]] : Grid)).getD k 0 + 1 :=
  ⟨by decide, by decide,
    remove_unclassified_spec [[0, 1], [2, 3]] [[0, 5], [0, 2]] (by decide) (by decide)⟩

theorem argsort_perm (a : List Nat) : (argsort a).Perm (List.range a.length) :=
  List.perm_insertionSort _ _

theorem argsort_length (a : List Nat) : (argsort a).length = a.length := by
  rw [(argsort_perm a).length_eq, List.length_range]

theorem argsort_nodup (a : List Nat) : (argsort a).Nodup :=
  (argsort_perm a).symm.nodup (List.nodup_range _)

theorem argsort_mem (a : List Nat) (k : Nat) : k ∈ argsort a ↔ k < a.length := by
  rw [(argsort_perm a).mem_iff, List.mem_range]

theorem argsort_sorted (a : List Nat) : List.Sorted (argRel a) (argsort a) :=
  List.sorted_insertionSort _ _

theorem argsort_getD_lt (a : List Nat) (i : Nat) (hi : i < a.length) :
    (argsort a).getD i 0 < a.length := by
  have hlen : i < (argsort a).length := by rw [argsort_length]; exact hi
  rw [List.getD_eq_getElem _ _ hlen, ← argsort_mem]
  exact List.getElem_mem hlen

theorem getD_ne_of_nodup {α : Type} (l : List α) (h : l.Nodup) (i j : Nat) (d : α)
    (hi : i < l.length) (hj : j < l.length) (hij : i ≠ j) :
    l.getD i d ≠ l.getD j d := by
  rw [List.getD_eq_getElem _ _ hi, List.getD_eq_getElem _ _ hj]
  intro heq
  apply hij
  have hget : l.get ⟨i, hi⟩ = l.get ⟨j, hj⟩ := by
    rw [List.get_eq_getElem, List.get_eq_getElem]
    exact heq
  have := (h.get_inj_iff).mp hget
  exact congrArg Fin.val this

theorem argsort_getD_ne (a : List Nat) (i j : Nat) (hi : i < a.length) (hj : j < a.length)
    (hij : i ≠ j) : (argsort a).getD i 0 ≠ (argsort a).getD j 0 := by
  apply getD_ne_of_nodup _ (argsort_nodup a)
  · rw [argsort_length]; exact hi
  · rw [argsort_length]; exact hj
  · exact hij

theorem argsort_rel_of_lt (a : List Nat) (i j : Nat) (hj : j < a.length) (hij : i < j) :
    argRel a ((argsort a).getD i 0) ((argsort a).getD j 0) := by
  have hj' : j < (argsort a).length := by rw [argsort_length]; exact hj
  have hi' : i < (argsort a).length := by omega
  rw [List.getD_eq_getElem _ _ hi', List.getD_eq_getElem _ _ hj']
  have hp := List.pairwise_iff_get.mp (argsort_sorted a)
  have := hp ⟨i, hi'⟩ ⟨j, hj'⟩ hij
  rw [List.get_eq_getElem, List.get_eq_getElem] at this
  exact this

theorem argsort_getD_surj (a : List Nat) (x : Nat) (hx : x < a.length) :
    ∃ p, p < a.length ∧ (argsort a).getD p 0 = x := by
  have hmem : x ∈ argsort a := (argsort_mem a x).mpr hx
  obtain ⟨⟨p, hp⟩, hpx⟩ := List.mem_iff_get.mp hmem
  refine ⟨p, by rw [← argsort_length]; exact hp, ?_⟩
  rw [List.getD_eq_getElem _ _ hp]
  rw [List.get_eq_getElem] at hpx
  exact hpx

theorem uniqueVals_nodup (xs : List Int) : (uniqueVals xs).Nodup :=
  List.nodup_dedup _

theorem mem_uniqueVals (xs : List Int) (v : Int) : v ∈ uniqueVals xs ↔ v ∈ xs := by
  unfold uniqueVals
  rw [List.mem_dedup, List.mem_insertionSort]

theorem countsOf_length (u xs : List Int) : (countsOf u xs).length = u.length :=
  List.length_map _ _

theorem countsOf_getD (u xs : List Int) (k : Nat) (hk : k < u.length) :
    (countsOf u xs).getD k 0 = xs.count (u.getD k 0) := by
  unfold countsOf
  rw [getD_map_lt _ _ _ _ hk, List.getD_eq_getElem _ _ hk]

theorem find?_range_succ_false (p : Nat → Bool) (n : Nat) (hp : p n = false) :
    (List.range (n + 1)).find? p = (List.range n).find? p := by
  rw [List.range_succ, List.find?_append]
  have h1 : [n].find? p = none := by
    simp [List.find?, hp]
  rw [h1, Option.or_none]

theorem find?_range_succ_none (p : Nat → Bool) (n : Nat)
    (h : (List.range n).find? p = none) (hp : p n = true) :
    (List.range (n + 1)).find? p = some n := by
  rw [List.range_succ, List.find?_append, h]
  simp [List.find?, hp]

theorem find?_range_first (p : Nat → Bool) (n i : Nat) (hi : i < n) (hp : p i = true)
    (hprev : ∀ q, q < i → p q = false) : (List.range n).find? p = some i := by
  induction n with
  | zero => omega
  | succ n ih =>
    rcases Nat.lt_or_ge i n with h | h
    · rw [List.range_succ, List.find?_append, ih h]
      rfl
    · have hin : i = n := by omega
      subst hin
      apply find?_range_succ_none
      · rw [List.find?_eq_none]
        intro x hx
        rw [List.mem_range] at hx
        rw [hprev x hx]
        simp
      · exact hp

theorem mcount_zero (l : List Int) : mcount l 0 = 0 := rfl

theorem mcount_succ (l : List Int) (n : Nat) :
    mcount l (n + 1) = if (n : Int) ∈ l then mcount l n + 1 else mcount l n := by
  unfold mcount
  rw [List.range_succ, List.filter_append]
  by_cases h : (n : Int) ∈ l
  · rw [if_pos h]
    simp [h]
  · rw [if_neg h]
    simp [h]

theorem natCast_int_injective : Function.Injective (fun k : Nat => (k : Int)) :=
  fun _ _ hab => Int.natCast_inj.mp hab

theorem mcount_lt_of_mem (l : List Int) (hnd : l.Nodup) (n : Nat) (hn : (n : Int) ∈ l) :
    mcount l n < l.length := by
  unfold mcount
  set S := (List.range n).filter (fun k : Nat => decide ((k : Int) ∈ l)) with hS
  have hSnd : S.Nodup := by
    rw [hS]; exact (List.nodup_range n).filter _
  have hTnd : (S.map (fun k : Nat => (k : Int))).Nodup := hSnd.map natCast_int_injective
  have hsub : (S.map (fun k : Nat => (k : Int))) ⊆ l.erase (n : Int) := by
    intro x hx
    rw [List.mem_map] at hx
    obtain ⟨k, hkS, hkx⟩ := hx
    rw [hS, List.mem_filter, List.mem_range] at hkS
    obtain ⟨hkn, hkl⟩ := hkS
    rw [decide_eq_true_eq] at hkl
    rw [(hnd.mem_erase_iff)]
    constructor
    · rw [← hkx]
      intro hc
      exact absurd (Int.natCast_inj.mp hc) (by omega)
    · rw [← hkx]; exact hkl
  have hle := (List.subperm_of_subset hTnd hsub).length_le
  rw [List.length_map] at hle
  have herase : (l.erase (n : Int)).length = l.length - 1 := List.length_erase_of_mem hn
  have hpos : 0 < l.length := List.length_pos_of_mem hn
  omega

theorem mcount_eq_length (l : List Int) (hnd : l.Nodup) (n : Nat)
    (hall : ∀ v ∈ l, 0 ≤ v ∧ v < (n : Int)) : mcount l n = l.length := by
  unfold mcount
  set S := (List.range n).filter (fun k : Nat => decide ((k : Int) ∈ l)) with hS
  have hSnd : S.Nodup := by
    rw [hS]; exact (List.nodup_range n).filter _
  have hTnd : (S.map (fun k : Nat => (k : Int))).Nodup := hSnd.map natCast_int_injective
  have hmem : ∀ x, x ∈ S.map (fun k : Nat => (k : Int)) ↔ x ∈ l := by
    intro x
    constructor
    · intro hx
      rw [List.mem_map] at hx
      obtain ⟨k, hkS, hkx⟩ := hx
      rw [hS, List.mem_filter] at hkS
      rw [← hkx]
      exact decide_eq_true_eq.mp hkS.2
    · intro hx
      rw [List.mem_map]
      refine ⟨x.toNat, ?_, Int.toNat_of_nonneg (hall x hx).1⟩
      rw [hS, List.mem_filter, List.mem_range]
      constructor
      · exact (Int.toNat_lt (hall x hx).1).mpr (hall x hx).2
      · rw [decide_eq_true_eq, Int.toNat_of_nonneg (hall x hx).1]
        exact hx
  have hperm : (S.map (fun k : Nat => (k : Int))).Perm l :=
    (List.perm_ext_iff_of_nodup hTnd hnd).mpr hmem
  have := hperm.length_eq
  rw [List.length_map] at this
  exact this

theorem canonL_zero (l2 : List Int) (c2 : List Nat) (v : Int) : canonL l2 c2 0 v = v := rfl

theorem canonP_zero (l : List Int) (c1 : List Nat) (offset : Int) (v : Int) :
    canonP l c1 offset 0 v = v := rfl

theorem canonL_succ (l2 : List Int) (c2 : List Nat) (n : Nat)
    (hinj : ∀ i, i < n → l2.getD (c2.getD i 0) 0 ≠ l2.getD (c2.getD n 0) 0) (o : Int) :
    canonL l2 c2 (n + 1) o =
      if o = l2.getD (c2.getD n 0) 0 then (n : Int) + 1 else canonL l2 c2 n o := by
  unfold canonL
  by_cases ho : o = l2.getD (c2.getD n 0) 0
  · rw [if_pos ho]
    rw [find?_range_succ_none]
    · rw [List.find?_eq_none]
      intro x hx
      rw [List.mem_range] at hx
      rw [beq_iff_eq, ho]
      exact hinj x hx
    · rw [beq_iff_eq]
      exact ho.symm
  · rw [if_neg ho, find?_range_succ_false]
    rw [beq_eq_false_iff_ne]
    exact fun hc => ho hc.symm

theorem canonP_succ (l : List Int) (c1 : List Nat) (offset : Int) (m : Nat)
    (hinj : ∀ j, j < m → l.getD (c1.getD j 0) 0 ≠ l.getD (c1.getD m 0) 0) (o : Int) :
    canonP l c1 offset (m + 1) o =
      if o = l.getD (c1.getD m 0) 0 then (m : Int) + offset + 1 else canonP l c1 offset m o := by
  unfold canonP
  by_cases ho : o = l.getD (c1.getD m 0) 0
  · rw [if_pos ho]
    rw [find?_range_succ_none]
    · rw [List.find?_eq_none]
      intro x hx
      rw [List.mem_range] at hx
      rw [beq_iff_eq, ho]
      exact hinj x hx
    · rw [beq_iff_eq]
      exact ho.symm
  · rw [if_neg ho, find?_range_succ_false]
    rw [beq_eq_false_iff_ne]
    exact fun hc => ho hc.symm

theorem canonL_rank (l2 : List Int) (c2 : List Nat) (n i : Nat) (hi : i < n)
    (hinj : ∀ q, q < i → l2.getD (c2.getD q 0) 0 ≠ l2.getD (c2.getD i 0) 0) :
    canonL l2 c2 n (l2.getD (c2.getD i 0) 0) = (i : Int) + 1 := by
  unfold canonL
  rw [find?_range_first (fun q => l2.getD (c2.getD q 0) 0 == l2.getD (c2.getD i 0) 0)
    n i hi (beq_self_eq_true _) (fun q hq => beq_eq_false_iff_ne.mpr (hinj q hq))]

theorem canonP_rank (l : List Int) (c1 : List Nat) (offset : Int) (m j : Nat) (hj : j < m)
    (hinj : ∀ q, q < j → l.getD (c1.getD q 0) 0 ≠ l.getD (c1.getD j 0) 0) :
    canonP l c1 offset m (l.getD (c1.getD j 0) 0) = (j : Int) + offset + 1 := by
  unfold canonP
  rw [find?_range_first (fun q => l.getD (c1.getD q 0) 0 == l.getD (c1.getD j 0) 0)
    m j hj (beq_self_eq_true _) (fun q hq => beq_eq_false_iff_ne.mpr (hinj q hq))]

theorem canonL_skip (l2 : List Int) (c2 : List Nat) (n : Nat) (v : Int)
    (h : ∀ i, i < n → l2.getD (c2.getD i 0) 0 ≠ v) : canonL l2 c2 n v = v := by
  unfold canonL
  have hnone : (List.range n).find? (fun i => l2.getD (c2.getD i 0) 0 == v) = none := by
    rw [List.find?_eq_none]
    intro x hx
    rw [List.mem_range] at hx
    rw [beq_iff_eq]
    exact h x hx
  rw [hnone]

theorem maskAssign_map (xs : List Int) (f : Int → Int) (v w : Int) :
    maskAssign xs (xs.map f) v w = xs.map (fun o => if o = v then w else f o) := by
  induction xs with
  | nil => rfl
  | cons x xs ih =>
    simp only [maskAssign, List.map_cons, List.zipWith_cons_cons] at *
    rw [ih]

theorem clcStep_mem (predF labF l l2 : List Int) (c1 c2 : List Nat) (offset : Int)
    (rp rl : List Int) (j i : Nat)
    (hmem : (i : Int) ∈ l)
    (hj : j < c1.length) (hcj : c1.getD j 0 < l.length)
    (hi : i < c2.length) (hc2i : c2.getD i 0 < l2.length) :
    clcStep predF labF l l2 c1 c2 offset (rp, rl, j) i =
      some (maskAssign predF rp (l.getD (c1.getD j 0) 0) ((j : Int) + offset + 1),
            maskAssign labF rl (l2.getD (c2.getD i 0) 0) ((i : Int) + 1), j + 1) := by
  have h1 : (c1[j]?) = some (c1.getD j 0) := by
    rw [List.getElem?_eq_getElem hj, List.getD_eq_getElem _ _ hj]
  have h2 : (l[c1.getD j 0]?) = some (l.getD (c1.getD j 0) 0) := by
    rw [List.getElem?_eq_getElem hcj, List.getD_eq_getElem _ _ hcj]
  have h3 : (c2[i]?) = some (c2.getD i 0) := by
    rw [List.getElem?_eq_getElem hi, List.getD_eq_getElem _ _ hi]
  have h4 : (l2[c2.getD i 0]?) = some (l2.getD (c2.getD i 0) 0) := by
    rw [List.getElem?_eq_getElem hc2i, List.getD_eq_getElem _ _ hc2i]
  simp only [clcStep, hmem, if_true, h1, h2, h3, h4]

theorem clcStep_not_mem (predF labF l l2 : List Int) (c1 c2 : List Nat) (offset : Int)
    (rp rl : List Int) (j i : Nat)
    (hmem : ¬ (i : Int) ∈ l)
    (hi : i < c2.length) (hc2i : c2.getD i 0 < l2.length) :
    clcStep predF labF l l2 c1 c2 offset (rp, rl, j) i =
      some (rp, maskAssign labF rl (l2.getD (c2.getD i 0) 0) ((i : Int) + 1), j) := by
  have h3 : (c2[i]?) = some (c2.getD i 0) := by
    rw [List.getElem?_eq_getElem hi, List.getD_eq_getElem _ _ hi]
  have h4 : (l2[c2.getD i 0]?) = some (l2.getD (c2.getD i 0) 0) := by
    rw [List.getElem?_eq_getElem hc2i, List.getD_eq_getElem _ _ hc2i]
  simp only [clcStep, hmem, if_false, h3, h4]

theorem clcLoop_spec (predF labF l l2 : List Int) (c1 c2 : List Nat) (offset : Int) (n : Nat)
    (hlnd : l.Nodup) (hl2nd : l2.Nodup)
    (hclen : c1.length = l.length)
    (hcmem : ∀ j, j < l.length → c1.getD j 0 < l.length)
    (hcinj : ∀ i j, i < l.length → j < l.length → i ≠ j → c1.getD i 0 ≠ c1.getD j 0)
    (hc2len : c2.length = l2.length)
    (hc2mem : ∀ i, i < l2.length → c2.getD i 0 < l2.length)
    (hc2inj : ∀ i j, i < l2.length → j < l2.length → i ≠ j → c2.getD i 0 ≠ c2.getD j 0)
    (hn : n ≤ l2.length) :
    (List.range n).foldlM (clcStep predF labF l l2 c1 c2 offset) (predF, labF, 0) =
      some (predF.map (canonP l c1 offset (mcount l n)),
            labF.map (canonL l2 c2 n), mcount l n) := by
  induction n with
  | zero =>
    simp only [List.range_zero, List.foldlM_nil, mcount_zero]
    rw [show predF.map (canonP l c1 offset 0) = predF by
      rw [show canonP l c1 offset 0 = fun v => v from funext (canonP_zero l c1 offset)]
      exact List.map_id' predF]
    rw [show labF.map (canonL l2 c2 0) = labF by
      rw [show canonL l2 c2 0 = fun v => v from funext (canonL_zero l2 c2)]
      exact List.map_id' labF]
    rfl
  | succ n ih =>
    have hn' : n ≤ l2.length := by omega
    have hnl2 : n < l2.length := by omega
    have hinjL : ∀ q, q < n → l2.getD (c2.getD q 0) 0 ≠ l2.getD (c2.getD n 0) 0 := by
      intro q hq
      apply getD_ne_of_nodup l2 hl2nd _ _ _ (hc2mem q (by omega)) (hc2mem n hnl2)
      exact hc2inj q n (by omega) hnl2 (by omega)
    have hlabel : maskAssign labF (labF.map (canonL l2 c2 n)) (l2.getD (c2.getD n 0) 0)
        ((n : Int) + 1) = labF.map (canonL l2 c2 (n + 1)) := by
      rw [maskAssign_map]
      exact (congrArg (fun f => List.map f labF) (funext fun o => canonL_succ l2 c2 n hinjL o)).symm
    rw [List.range_succ, List.foldlM_append, ih hn']
    rcases Decidable.em ((n : Int) ∈ l) with hmem | hmem
    · have hjlt : mcount l n < l.length := mcount_lt_of_mem l hlnd n hmem
      have hinjP : ∀ q, q < mcount l n →
          l.getD (c1.getD q 0) 0 ≠ l.getD (c1.getD (mcount l n) 0) 0 := by
        intro q hq
        apply getD_ne_of_nodup l hlnd _ _ _ (hcmem q (by omega)) (hcmem _ hjlt)
        exact hcinj q (mcount l n) (by omega) hjlt (by omega)
      have hstep := clcStep_mem predF labF l l2 c1 c2 offset
        (predF.map (canonP l c1 offset (mcount l n))) (labF.map (canonL l2 c2 n))
        (mcount l n) n hmem (by omega) (hcmem _ hjlt) (by omega) (hc2mem n hnl2)
      have hpred : maskAssign predF (predF.map (canonP l c1 offset (mcount l n)))
          (l.getD (c1.getD (mcount l n) 0) 0) ((mcount l n : Int) + offset + 1) =
          predF.map (canonP l c1 offset (mcount l n + 1)) := by
        rw [maskAssign_map]
        exact (congrArg (fun f => List.map f predF) (funext fun o => canonP_succ l c1 offset (mcount l n) hinjP o)).symm
      simp only [List.foldlM_cons, List.foldlM_nil, Option.bind_eq_bind, Option.some_bind]
      rw [hstep, mcount_succ, if_pos hmem]
      simp only [Option.bind_eq_bind, Option.some_bind, Option.pure_def]
      rw [hpred, hlabel]
    · have hstep := clcStep_not_mem predF labF l l2 c1 c2 offset
        (predF.map (canonP l c1 offset (mcount l n))) (labF.map (canonL l2 c2 n))
        (mcount l n) n hmem (by omega) (hc2mem n hnl2)
      simp only [List.foldlM_cons, List.foldlM_nil, Option.bind_eq_bind, Option.some_bind]
      rw [hstep, mcount_succ, if_neg hmem]
      simp only [Option.bind_eq_bind, Option.some_bind, Option.pure_def]
      rw [hlabel]

theorem argsortU_length (u xs : List Int) : (argsort (countsOf u xs)).length = u.length := by
  rw [argsort_length, countsOf_length]

theorem argsortU_getD_lt (u xs : List Int) (j : Nat) (hj : j < u.length) :
    (argsort (countsOf u xs)).getD j 0 < u.length := by
  have h := argsort_getD_lt (countsOf u xs) j (by rw [countsOf_length]; exact hj)
  rwa [countsOf_length] at h

theorem argsortU_getD_ne (u xs : List Int) (i j : Nat) (hi : i < u.length) (hj : j < u.length)
    (hij : i ≠ j) :
    (argsort (countsOf u xs)).getD i 0 ≠ (argsort (countsOf u xs)).getD j 0 := by
  apply argsort_getD_ne (countsOf u xs) i j
  · rw [countsOf_length]; exact hi
  · rw [countsOf_length]; exact hj
  · exact hij

theorem clc_closed (labels preds : Grid) (n : Nat)
    (hn : n ≤ (uniqueVals (flatten labels)).length)
    (hzlt : ∀ k, k < (flatten labels).length → (flatten labels).getD k 1 = 0 →
        k < (flatten preds).length) :
    compute_labels_correspondence labels preds n =
      some (reshape ((flatten labels).map
              (canonL (uniqueVals (flatten labels))
                (argsort (countsOf (uniqueVals (flatten labels)) (flatten labels))) n))
            labels.length (cols labels),
            reshape ((List.range (flatten preds).length).map (fun k =>
                if (flatten labels).getD k 1 = 0 then 0
                else ((flatten preds).map
                  (canonP (uniqueVals (flatten preds))
                    (argsort (countsOf (uniqueVals (flatten preds)) (flatten preds)))
                    (((uniqueVals (flatten labels)).length : Int) -
                      ((uniqueVals (flatten preds)).length : Int))
                    (mcount (uniqueVals (flatten preds)) n))).getD k 0))
            preds.length (cols preds)) := by
  have hloop := clcLoop_spec (flatten preds) (flatten labels)
    (uniqueVals (flatten preds)) (uniqueVals (flatten labels))
    (argsort (countsOf (uniqueVals (flatten preds)) (flatten preds)))
    (argsort (countsOf (uniqueVals (flatten labels)) (flatten labels)))
    (((uniqueVals (flatten labels)).length : Int) - ((uniqueVals (flatten preds)).length : Int))
    n
    (uniqueVals_nodup _) (uniqueVals_nodup _)
    (argsortU_length _ _)
    (fun j hj => argsortU_getD_lt _ _ j hj)
    (fun i j hi hj hij => argsortU_getD_ne _ _ i j hi hj hij)
    (argsortU_length _ _)
    (fun i hi => argsortU_getD_lt _ _ i hi)
    (fun i j hi hj hij => argsortU_getD_ne _ _ i j hi hj hij)
    hn
  have hfz := forceZeros_eq (flatten labels)
    ((flatten preds).map
      (canonP (uniqueVals (flatten preds))
        (argsort (countsOf (uniqueVals (flatten preds)) (flatten preds)))
        (((uniqueVals (flatten labels)).length : Int) -
          ((uniqueVals (flatten preds)).length : Int))
        (mcount (uniqueVals (flatten preds)) n)))
    (by
      intro k hk hz
      rw [List.length_map]
      exact hzlt k hk hz)
  simp only [compute_labels_correspondence]
  rw [hloop]
  simp only []
  rw [hfz]
  simp only [List.length_map]

/-- C1: on labels = [[0,1,1],[2,2,2]], preds = [[2,2,0],[0,1,1]], n_cluster = 3,
compute_labels_correspondence returns res_labels = [[1,2,2],[3,3,3]] and
res_preds = [[0,3,1],[1,2,2]]. -/
theorem clc_worked_example :
    compute_labels_correspondence [[0, 1, 1], [2, 2, 2]] [[2, 2, 0], [0, 1, 1]] 3 =
      some ([[1, 2, 2], [3, 3, 3]], [[0, 3, 1], [1, 2, 2]]) := by decide

theorem uniq_rank_ne (u xs : List Int) (hnd : u.Nodup) (q i : Nat)
    (hq : q < u.length) (hi : i < u.length) (hqi : q ≠ i) :
    u.getD ((argsort (countsOf u xs)).getD q 0) 0 ≠
      u.getD ((argsort (countsOf u xs)).getD i 0) 0 :=
  getD_ne_of_nodup u hnd _ _ 0 (argsortU_getD_lt u xs q hq) (argsortU_getD_lt u xs i hi)
    (argsortU_getD_ne u xs q i hq hi hqi)

theorem uniq_rank_count (u xs : List Int) (i : Nat) (hi : i < u.length) :
    (countsOf u xs).getD ((argsort (countsOf u xs)).getD i 0) 0 =
      xs.count (u.getD ((argsort (countsOf u xs)).getD i 0) 0) :=
  countsOf_getD u xs _ (argsortU_getD_lt u xs i hi)

theorem argsortOf_getD_lt (a c : List Nat) (h : isArgsortOf a c) (i : Nat)
    (hi : i < a.length) : c.getD i 0 < a.length := by
  have hi2 : i < c.length := by rw [h.1]; exact hi
  rw [List.getD_eq_getElem _ _ hi2]
  exact h.2.2.1 _ (List.getElem_mem hi2)

theorem argsortOf_getD_ne (a c : List Nat) (h : isArgsortOf a c) (i j : Nat)
    (hi : i < a.length) (hj : j < a.length) (hij : i ≠ j) :
    c.getD i 0 ≠ c.getD j 0 :=
  getD_ne_of_nodup c h.2.1 i j 0 (by rw [h.1]; exact hi) (by rw [h.1]; exact hj) hij

theorem argsortOf_rel_of_lt (a c : List Nat) (h : isArgsortOf a c) (i j : Nat)
    (hj : j < a.length) (hij : i < j) :
    a.getD (c.getD i 0) 0 ≤ a.getD (c.getD j 0) 0 := by
  have hj2 : j < c.length := by rw [h.1]; exact hj
  have hi2 : i < c.length := by omega
  rw [List.getD_eq_getElem _ _ hi2, List.getD_eq_getElem _ _ hj2]
  have hp := List.pairwise_iff_get.mp h.2.2.2
  have hrel := hp ⟨i, hi2⟩ ⟨j, hj2⟩ hij
  rw [List.get_eq_getElem, List.get_eq_getElem] at hrel
  exact hrel

theorem argsortOf_surj (a c : List Nat) (h : isArgsortOf a c) (x : Nat)
    (hx : x < a.length) : ∃ p, p < a.length ∧ c.getD p 0 = x := by
  have hmem : x ∈ c := by
    have hsub : c.toFinset ⊆ Finset.range a.length := by
      intro y hy
      rw [Finset.mem_range]
      rw [List.mem_toFinset] at hy
      exact h.2.2.1 y hy
    have hcard : (Finset.range a.length).card ≤ c.toFinset.card := by
      rw [List.toFinset_card_of_nodup h.2.1, Finset.card_range, h.1]
    have heq := Finset.eq_of_subset_of_card_le hsub hcard
    rw [← List.mem_toFinset, heq, Finset.mem_range]
    exact hx
  obtain ⟨⟨p, hp⟩, hpx⟩ := List.mem_iff_get.mp hmem
  refine ⟨p, by rw [← h.1]; exact hp, ?_⟩
  rw [List.getD_eq_getElem _ _ hp]
  rw [List.get_eq_getElem] at hpx
  exact hpx

theorem argsort_isArgsortOf (a : List Nat) : isArgsortOf a (argsort a) := by
  refine ⟨argsort_length a, argsort_nodup a, ?_, ?_⟩
  · intro k hk
    rw [argsort_mem] at hk
    exact hk
  · apply List.Pairwise.imp ?_ (argsort_sorted a)
    intro i j hij
    unfold argRel at hij
    omega

theorem clc_with_argsort (labels preds : Grid) (n : Nat) :
    clc_with labels preds n
      (argsort (countsOf (uniqueVals (flatten preds)) (flatten preds)))
      (argsort (countsOf (uniqueVals (flatten labels)) (flatten labels))) =
      compute_labels_correspondence labels preds n := rfl

theorem clc_with_closed (labels preds : Grid) (n : Nat) (c1 c2 : List Nat)
    (hc1 : isArgsortOf (countsOf (uniqueVals (flatten preds)) (flatten preds)) c1)
    (hc2 : isArgsortOf (countsOf (uniqueVals (flatten labels)) (flatten labels)) c2)
    (hn : n ≤ (uniqueVals (flatten labels)).length)
    (hzlt : ∀ k, k < (flatten labels).length → (flatten labels).getD k 1 = 0 →
        k < (flatten preds).length) :
    clc_with labels preds n c1 c2 =
      some (reshape ((flatten labels).map
              (canonL (uniqueVals (flatten labels)) c2 n)) labels.length (cols labels),
            reshape ((List.range (flatten preds).length).map (fun k =>
                if (flatten labels).getD k 1 = 0 then 0
                else ((flatten preds).map
                  (canonP (uniqueVals (flatten preds)) c1
                    (((uniqueVals (flatten labels)).length : Int) -
                      ((uniqueVals (flatten preds)).length : Int))
                    (mcount (uniqueVals (flatten preds)) n))).getD k 0))
            preds.length (cols preds)) := by
  have hc1len : c1.length = (uniqueVals (flatten preds)).length := by
    rw [hc1.1, countsOf_length]
  have hc2len : c2.length = (uniqueVals (flatten labels)).length := by
    rw [hc2.1, countsOf_length]
  have hc1mem : ∀ j, j < (uniqueVals (flatten preds)).length →
      c1.getD j 0 < (uniqueVals (flatten preds)).length := by
    intro j hj
    have := argsortOf_getD_lt _ c1 hc1 j (by rw [countsOf_length]; exact hj)
    rwa [countsOf_length] at this
  have hc2mem : ∀ i, i < (uniqueVals (flatten labels)).length →
      c2.getD i 0 < (uniqueVals (flatten labels)).length := by
    intro i hi
    have := argsortOf_getD_lt _ c2 hc2 i (by rw [countsOf_length]; exact hi)
    rwa [countsOf_length] at this
  have hc1inj : ∀ i j, i < (uniqueVals (flatten preds)).length →
      j < (uniqueVals (flatten preds)).length → i ≠ j → c1.getD i 0 ≠ c1.getD j 0 := by
    intro i j hi hj hij
    exact argsortOf_getD_ne _ c1 hc1 i j (by rw [countsOf_length]; exact hi)
      (by rw [countsOf_length]; exact hj) hij
  have hc2inj : ∀ i j, i < (uniqueVals (flatten labels)).length →
      j < (uniqueVals (flatten labels)).length → i ≠ j → c2.getD i 0 ≠ c2.getD j 0 := by
    intro i j hi hj hij
    exact argsortOf_getD_ne _ c2 hc2 i j (by rw [countsOf_length]; exact hi)
      (by rw [countsOf_length]; exact hj) hij
  have hloop := clcLoop_spec (flatten preds) (flatten labels)
    (uniqueVals (flatten preds)) (uniqueVals (flatten labels)) c1 c2
    (((uniqueVals (flatten labels)).length : Int) - ((uniqueVals (flatten preds)).length : Int))
    n
    (uniqueVals_nodup _) (uniqueVals_nodup _)
    hc1len hc1mem hc1inj hc2len hc2mem hc2inj hn
  have hfz := forceZeros_eq (flatten labels)
    ((flatten preds).map
      (canonP (uniqueVals (flatten preds)) c1
        (((uniqueVals (flatten labels)).length : Int) -
          ((uniqueVals (flatten preds)).length : Int))
        (mcount (uniqueVals (flatten preds)) n)))
    (by
      intro k hk hz
      rw [List.length_map]
      exact hzlt k hk hz)
  simp only [clc_with]
  rw [hloop]
  simp only []
  rw [hfz]
  simp only [List.length_map]

/-- C4 counterexample: labels = [[1,2],[1,2]] has two classes with equal
population 2, whose counts array is [2,2]; the index permutation [1,0] is an
admissible result of np.argsort on it (the source uses the default
quicksort/introsort kind, which guarantees only an ascending permutation and no
tie order), and running the resolver loop with that permutation renumbers the
tied classes against their original positions: the class at original position 0
(value 1) receives canonical id 2, not 1.  Stable tie-breaking is therefore not
a property of the program. -/
theorem clc_rank_ties_cex :
    isArgsortOf (countsOf (uniqueVals (flatten ([[1, 2], [1, 2]] : Grid)))
      (flatten ([[1, 2], [1, 2]] : Grid))) [1, 0] ∧
    isArgsortOf (countsOf (uniqueVals (flatten ([[0, 1], [0, 1]] : Grid)))
      (flatten ([[0, 1], [0, 1]] : Grid))) [0, 1] ∧
    clc_with [[1, 2], [1, 2]] [[0, 1], [0, 1]] 2 [0, 1] [1, 0] =
      some ([[2, 1], [2, 1]], [[1, 2], [1, 2]]) ∧
    (flatten ([[1, 2], [1, 2]] : Grid)).count 1 =
      (flatten ([[1, 2], [1, 2]] : Grid)).count 2 ∧
    (uniqueVals (flatten ([[1, 2], [1, 2]] : Grid))).getD 0 7 = 1 ∧
    ¬ ([1, 0] : List Nat).getD 0 0 < ([1, 0] : List Nat).getD 1 0 ∧
    (flatten ([[2, 1], [2, 1]] : Grid)).getD 0 7 = 2 := by decide

/-- C4 (amended): for every input satisfying the documented precondition
(1 ≤ n_cluster ≤ number of distinct label values, matching flat sizes) and for
EVERY pair of index permutations admissible as np.argsort outcomes on the two
count arrays, the resolver run with those permutations gives canonical id 1 to
a class of smallest population in labels, gives canonical id i + 1 to the class
placed at count rank i, and class populations are non-decreasing as the
canonical id increases.  The relative order of equal-population classes is
whatever the library's unstable sort produced and carries no guarantee. -/
theorem clc_rank_consistent_any (labels preds : Grid) (n : Nat) (c1 c2 : List Nat)
    (hrl : rect labels)
    (hn1 : 1 ≤ n) (hn : n ≤ (uniqueVals (flatten labels)).length)
    (hlen : (flatten labels).length = (flatten preds).length)
    (hc1 : isArgsortOf (countsOf (uniqueVals (flatten preds)) (flatten preds)) c1)
    (hc2 : isArgsortOf (countsOf (uniqueVals (flatten labels)) (flatten labels)) c2) :
    let labF := flatten labels
    let l2 := uniqueVals labF
    ∃ rl rp, clc_with labels preds n c1 c2 = some (rl, rp) ∧
      (∀ v ∈ l2, labF.count (l2.getD (c2.getD 0 0) 0) ≤ labF.count v) ∧
      (∀ i, i < n → ∀ k, k < labF.length →
        labF.getD k 0 = l2.getD (c2.getD i 0) 0 →
        (flatten rl).getD k 0 = (i : Int) + 1) ∧
      (∀ i j, i ≤ j → j < n →
        labF.count (l2.getD (c2.getD i 0) 0) ≤ labF.count (l2.getD (c2.getD j 0) 0)) := by
  intro labF l2
  have hn2 : n ≤ l2.length := hn
  have hc2b : isArgsortOf (countsOf l2 labF) c2 := hc2
  have hcntlen : (countsOf l2 labF).length = l2.length := countsOf_length l2 labF
  have hc2lt : ∀ i, i < l2.length → c2.getD i 0 < l2.length := by
    intro i hi
    have := argsortOf_getD_lt _ c2 hc2b i (by rw [hcntlen]; exact hi)
    rwa [hcntlen] at this
  have huc : ∀ i, i < l2.length →
      (countsOf l2 labF).getD (c2.getD i 0) 0 = labF.count (l2.getD (c2.getD i 0) 0) :=
    fun i hi => countsOf_getD l2 labF _ (hc2lt i hi)
  have hrelc : ∀ i j, i < j → j < l2.length →
      (countsOf l2 labF).getD (c2.getD i 0) 0 ≤ (countsOf l2 labF).getD (c2.getD j 0) 0 :=
    fun i j hij hj => argsortOf_rel_of_lt _ c2 hc2b i j (by rw [hcntlen]; exact hj) hij
  have hzlt : ∀ k, k < (flatten labels).length → (flatten labels).getD k 1 = 0 →
      k < (flatten preds).length := fun k hk _ => by omega
  have hclosed := clc_with_closed labels preds n c1 c2 hc1 hc2 hn hzlt
  refine ⟨_, _, hclosed, ?_, ?_, ?_⟩
  · -- the rank-0 class has minimal population
    intro v hv
    obtain ⟨⟨idx, hidx⟩, hvidx⟩ := List.mem_iff_get.mp hv
    rw [List.get_eq_getElem] at hvidx
    have hvD : l2.getD idx 0 = v := by
      rw [List.getD_eq_getElem _ _ hidx]; exact hvidx
    obtain ⟨p, hp, hpidx⟩ := argsortOf_surj _ c2 hc2b idx (by rw [hcntlen]; exact hidx)
    have hplen : p < l2.length := by rw [hcntlen] at hp; exact hp
    have hpc2 : c2.getD p 0 = idx := hpidx
    rcases Nat.eq_zero_or_pos p with hp0 | hp0
    · subst hp0
      rw [hpc2, hvD]
    · have h0lt : 0 < l2.length := by omega
      have hle := hrelc 0 p hp0 hplen
      rw [huc 0 h0lt, huc p hplen] at hle
      rw [hpc2, hvD] at hle
      exact hle
  · -- each covered rank i is renumbered to i + 1
    intro i hi k hk hkv
    have hflat : flatten (reshape (labF.map
        (canonL l2 c2 n)) labels.length (cols labels)) = labF.map (canonL l2 c2 n) := by
      apply flatten_reshape
      rw [List.length_map]
      exact rect_flatten_length labels hrl
    rw [hflat, getD_map_lt _ _ _ _ hk, ← List.getD_eq_getElem labF 0 hk, hkv]
    apply canonL_rank l2 c2 n i hi
    intro q hq
    apply getD_ne_of_nodup l2 (uniqueVals_nodup _) _ _ _
      (hc2lt q (by omega)) (hc2lt i (by omega))
    exact argsortOf_getD_ne _ c2 hc2b q i (by rw [hcntlen]; omega)
      (by rw [hcntlen]; omega) (by omega)
  · -- populations non-decreasing in canonical id
    intro i j hij hj
    rcases Nat.eq_or_lt_of_le hij with he | hlt
    · subst he; exact le_refl _
    · have hjlen : j < l2.length := by omega
      have hle := hrelc i j hlt hjlen
      rwa [huc i (by omega), huc j hjlen] at hle

/-- C4 witness: the amended theorem applied at the worked example with the
model's own argsort outcomes, which satisfy the np.argsort contract. -/
theorem clc_rank_consistent_any_witness :
    rect ([[0, 1, 1], [2, 2, 2]] : Grid) ∧ 1 ≤ 3 ∧
    3 ≤ (uniqueVals (flatten ([[0, 1, 1], [2, 2, 2]] : Grid))).length ∧
    (flatten ([[0, 1, 1], [2, 2, 2]] : Grid)).length =
      (flatten ([[2, 2, 0], [0, 1, 1]] : Grid)).length ∧
    isArgsortOf (countsOf (uniqueVals (flatten ([[2, 2, 0], [0, 1, 1]] : Grid)))
      (flatten ([[2, 2, 0], [0, 1, 1]] : Grid))) [0, 1, 2] ∧
    isArgsortOf (countsOf (uniqueVals (flatten ([[0, 1, 1], [2, 2, 2]] : Grid)))
      (flatten ([[0, 1, 1], [2, 2, 2]] : Grid))) [0, 1, 2] ∧
    (let labF := flatten ([[0, 1, 1], [2, 2, 2]] : Grid)
     let l2 := uniqueVals labF
     ∃ rl rp, clc_with [[0, 1, 1], [2, 2, 2]] [[2, 2, 0], [0, 1, 1]] 3 [0, 1, 2] [0, 1, 2] =
        some (rl, rp) ∧
      (∀ v ∈ l2, labF.count (l2.getD (([0, 1, 2] : List Nat).getD 0 0) 0) ≤ labF.count v) ∧
      (∀ i, i < 3 → ∀ k, k < labF.length →
        labF.getD k 0 = l2.getD (([0, 1, 2] : List Nat).getD i 0) 0 →
        (flatten rl).getD k 0 = (i : Int) + 1) ∧
      (∀ i j, i ≤ j → j < 3 →
        labF.count (l2.getD (([0, 1, 2] : List Nat).getD i 0) 0) ≤
          labF.count (l2.getD (([0, 1, 2] : List Nat).getD j 0) 0))) :=
  ⟨by decide, by decide, by decide, by decide, by decide, by decide,
    clc_rank_consistent_any [[0, 1, 1], [2, 2, 2]] [[2, 2, 0], [0, 1, 1]] 3 [0, 1, 2] [0, 1, 2]
      (by decide) (by decide) (by decide) (by decide) (by decide) (by decide)⟩

/-- C5 counterexample: with labels = [[1,1],[2,2]], preds = [[0,1],[2,2]] and
n_cluster = 2 (prediction ids outside the range covered by two distinct label
values, offset negative) the resolver returns res_preds = [[0,1],[2,2]], whose
position 0 is 0 although the original label there is 1, so res_preds is not 0
exactly where labels is 0. -/
theorem clc_unclassified_cex :
    compute_labels_correspondence [[1, 1], [2, 2]] [[0, 1], [2, 2]] 2 =
      some ([[1, 1], [2, 2]], [[0, 1], [2, 2]]) ∧
    (flatten ([[0, 1], [2, 2]] : Grid)).getD 0 7 = 0 ∧
    (flatten ([[1, 1], [2, 2]] : Grid)).getD 0 7 ≠ 0 := by decide

/-- C5 (amended): when the inputs satisfy the documented contract of the
resolver (prediction cluster ids are integers in [0, n_cluster), labels have at
least as many distinct values as preds, n_cluster at most the number of distinct
label values, and flat sizes match) the returned res_preds grid is 0 exactly at
the positions where the original labels grid is 0. -/
theorem clc_unclassified_inv (labels preds : Grid) (n : Nat)
    (hrp : rect preds)
    (hn : n ≤ (uniqueVals (flatten labels)).length)
    (hlen : (flatten labels).length = (flatten preds).length)
    (hoff : (uniqueVals (flatten preds)).length ≤ (uniqueVals (flatten labels)).length)
    (hvals : ∀ v ∈ flatten preds, 0 ≤ v ∧ v < (n : Int)) :
    ∃ rl rp, compute_labels_correspondence labels preds n = some (rl, rp) ∧
      ∀ k, k < (flatten preds).length →
        ((flatten rp).getD k 0 = 0 ↔ (flatten labels).getD k 0 = 0) := by
  have hzlt : ∀ k, k < (flatten labels).length → (flatten labels).getD k 1 = 0 →
      k < (flatten preds).length := fun k hk _ => by omega
  have hclosed := clc_closed labels preds n hn hzlt
  refine ⟨_, _, hclosed, ?_⟩
  intro k hk
  set labF := flatten labels with hlabF
  set predF := flatten preds with hpredF
  set l := uniqueVals predF with hl
  set c1 := argsort (countsOf l predF) with hc1
  set offset : Int := ((uniqueVals labF).length : Int) - (l.length : Int) with hoffset
  set m := mcount l n with hm
  have hkl : k < labF.length := by omega
  have hflat : flatten (reshape ((List.range predF.length).map (fun q =>
      if labF.getD q 1 = 0 then 0 else (predF.map (canonP l c1 offset m)).getD q 0))
      preds.length (cols preds)) =
      (List.range predF.length).map (fun q =>
        if labF.getD q 1 = 0 then 0 else (predF.map (canonP l c1 offset m)).getD q 0) := by
    apply flatten_reshape
    rw [List.length_map, List.length_range]
    exact rect_flatten_length preds hrp
  rw [hflat, getD_range_map _ _ _ _ hk]
  have h01 : labF.getD k 1 = labF.getD k 0 := by
    rw [List.getD_eq_getElem _ _ hkl, List.getD_eq_getElem _ _ hkl]
  rw [h01]
  by_cases hz : labF.getD k 0 = 0
  · rw [if_pos hz]
    exact ⟨fun _ => hz, fun _ => rfl⟩
  · rw [if_neg hz]
    constructor
    · intro hc
      exfalso
      rw [getD_map_lt _ _ _ _ hk] at hc
      have hvmem : predF[k] ∈ predF := List.getElem_mem hk
      have hvl : predF[k] ∈ l := by
        rw [hl, mem_uniqueVals]
        exact hvmem
      have hml : m = l.length := by
        rw [hm]
        apply mcount_eq_length l (uniqueVals_nodup _) n
        intro v hv
        rw [hl, mem_uniqueVals] at hv
        exact hvals v hv
      obtain ⟨⟨idx, hidx⟩, hvidx⟩ := List.mem_iff_get.mp hvl
      rw [List.get_eq_getElem] at hvidx
      have hvD : l.getD idx 0 = predF[k] := by
        rw [List.getD_eq_getElem _ _ hidx]; exact hvidx
      obtain ⟨p, hp, hpidx⟩ := argsort_getD_surj (countsOf l predF) idx
        (by rw [countsOf_length]; exact hidx)
      rw [countsOf_length] at hp
      have hpc1 : c1.getD p 0 = idx := hpidx
      have hrank : canonP l c1 offset m (predF[k]) = (p : Int) + offset + 1 := by
        rw [← hvD, ← hpc1]
        apply canonP_rank l c1 offset m p (by omega)
        intro q hq
        exact uniq_rank_ne l predF (uniqueVals_nodup _) q p (by omega) hp (by omega)
      rw [hrank] at hc
      have hoffset0 : 0 ≤ offset := by
        rw [hoffset]
        omega
      omega
    · intro hc
      exact absurd hc hz

/-- C5 witness: the amended theorem applied at the worked example, whose inputs
satisfy the documented contract. -/
theorem clc_unclassified_inv_witness :
    rect ([[2, 2, 0], [0, 1, 1]] : Grid) ∧
    3 ≤ (uniqueVals (flatten ([[0, 1, 1], [2, 2, 2]] : Grid))).length ∧
    (flatten ([[0, 1, 1], [2, 2, 2]] : Grid)).length =
      (flatten ([[2, 2, 0], [0, 1, 1]] : Grid)).length ∧
    (uniqueVals (flatten ([[2, 2, 0], [0, 1, 1]] : Grid))).length ≤
      (uniqueVals (flatten ([[0, 1, 1], [2, 2, 2]] : Grid))).length ∧
    (∀ v ∈ flatten ([[2, 2, 0], [0, 1, 1]] : Grid), 0 ≤ v ∧ v < (3 : Int)) ∧
    ∃ rl rp, compute_labels_correspondence [[0, 1, 1], [2, 2, 2]] [[2, 2, 0], [0, 1, 1]] 3 =
        some (rl, rp) ∧
      ∀ k, k < (flatten ([[2, 2, 0], [0, 1, 1]] : Grid)).length →
        ((flatten rp).getD k 0 = 0 ↔ (flatten ([[0, 1, 1], [2, 2, 2]] : Grid)).getD k 0 = 0) :=
  ⟨by decide, by decide, by decide, by decide, by decide,
    clc_unclassified_inv [[0, 1, 1], [2, 2, 2]] [[2, 2, 0], [0, 1, 1]] 3
      (by decide) (by decide) (by decide) (by decide) (by decide)⟩

/-- C6 counterexample: with labels = [[1,2]] (two distinct values) and
n_cluster = 1, the resolver does not surface any error: it returns normally,
and the returned res_labels = [[1,2]] still contains the raw unremapped label
value 2 beyond the single covered rank. -/
theorem clc_config_cex :
    compute_labels_correspondence [[1, 2]] [[0, 0]] 1 = some ([[1, 2]], [[2, 2]]) ∧
    1 < (uniqueVals (flatten ([[1, 2]] : Grid))).length := by decide

/-- C6 (amended): when n_cluster is smaller than the number of distinct values
in labels (and flat sizes match), the resolver does not surface an error: it
returns a result in which every label cell whose value is outside the covered
count ranks retains its raw, unremapped original value, silently truncating the
renumbering. -/
theorem clc_truncation_silent (labels preds : Grid) (n : Nat)
    (hrl : rect labels)
    (hn : n < (uniqueVals (flatten labels)).length)
    (hlen : (flatten labels).length = (flatten preds).length) :
    ∃ rl rp, compute_labels_correspondence labels preds n = some (rl, rp) ∧
      ∀ k, k < (flatten labels).length →
        (∀ i, i < n →
          (flatten labels).getD k 0 ≠
            (uniqueVals (flatten labels)).getD
              ((argsort (countsOf (uniqueVals (flatten labels)) (flatten labels))).getD i 0) 0) →
        (flatten rl).getD k 0 = (flatten labels).getD k 0 := by
  have hzlt : ∀ k, k < (flatten labels).length → (flatten labels).getD k 1 = 0 →
      k < (flatten preds).length := fun k hk _ => by omega
  have hclosed := clc_closed labels preds n (by omega) hzlt
  refine ⟨_, _, hclosed, ?_⟩
  intro k hk hraw
  have hflat : flatten (reshape ((flatten labels).map
      (canonL (uniqueVals (flatten labels))
        (argsort (countsOf (uniqueVals (flatten labels)) (flatten labels))) n))
      labels.length (cols labels)) =
      (flatten labels).map
        (canonL (uniqueVals (flatten labels))
          (argsort (countsOf (uniqueVals (flatten labels)) (flatten labels))) n) := by
    apply flatten_reshape
    rw [List.length_map]
    exact rect_flatten_length labels hrl
  rw [hflat, getD_map_lt _ _ _ _ hk, ← List.getD_eq_getElem (flatten labels) 0 hk]
  apply canonL_skip
  intro i hi
  exact fun hc => hraw i hi hc.symm

/-- C6 witness: the amended theorem applied at the counterexample input, where
the cell holding the raw value 2 is beyond the covered ranks. -/
theorem clc_truncation_silent_witness :
    rect ([[1, 2]] : Grid) ∧
    1 < (uniqueVals (flatten ([[1, 2]] : Grid))).length ∧
    (flatten ([[1, 2]] : Grid)).length = (flatten ([[0, 0]] : Grid)).length ∧
    ∃ rl rp, compute_labels_correspondence [[1, 2]] [[0, 0]] 1 = some (rl, rp) ∧
      ∀ k, k < (flatten ([[1, 2]] : Grid)).length →
        (∀ i, i < 1 →
          (flatten ([[1, 2]] : Grid)).getD k 0 ≠
            (uniqueVals (flatten ([[1, 2]] : Grid))).getD
              ((argsort (countsOf (uniqueVals (flatten ([[1, 2]] : Grid)))
                (flatten ([[1, 2]] : Grid)))).getD i 0) 0) →
        (flatten rl).getD k 0 = (flatten ([[1, 2]] : Grid)).getD k 0 :=
  ⟨by decide, by decide, by decide,
    clc_truncation_silent [[1, 2]] [[0, 0]] 1 (by decide) (by decide) (by decide)⟩

theorem getD_set_list {α : Type} (l : List α) (i a : Nat) (x d : α) :
    (l.set i x).getD a d = if a = i ∧ i < l.length then x else l.getD a d := by
  rw [List.getD_eq_getElem?_getD, List.getD_eq_getElem?_getD, List.getElem?_set]
  by_cases h1 : i = a
  · subst h1
    by_cases h2 : i < l.length
    · rw [if_pos rfl, if_pos h2, if_pos ⟨rfl, h2⟩]
      rfl
    · rw [if_pos rfl, if_neg h2, if_neg (fun hh => h2 hh.2)]
      rw [List.getElem?_eq_none (by omega)]
  · rw [if_neg h1, if_neg (fun hh => h1 hh.1.symm)]

theorem getD_replicate_lt {α : Type} (r a : Nat) (x : α) (d : α) (ha : a < r) :
    (List.replicate r x).getD a d = x := by
  rw [List.getD_eq_getElem _ _ (by rw [List.length_replicate]; exact ha)]
  exact List.getElem_replicate x _

theorem setCell_some (g : OGrid) (i j : Nat) (v : Option Int)
    (hi : i < g.length) (hj : j < (g.getD i []).length) :
    setCell g i j v = some (g.set i ((g.getD i []).set j v)) := by
  unfold setCell
  rw [if_pos ⟨hi, hj⟩]

theorem setCell_dims (g : OGrid) (i j : Nat) (v : Option Int) (g2 : OGrid)
    (h : setCell g i j v = some g2) :
    g2.length = g.length ∧ ∀ a, (g2.getD a []).length = (g.getD a []).length := by
  unfold setCell at h
  by_cases hc : i < g.length ∧ j < (g.getD i []).length
  · rw [if_pos hc] at h
    injection h with h
    subst h
    refine ⟨List.length_set g i _, ?_⟩
    intro a
    rw [getD_set_list]
    by_cases ha : a = i ∧ i < g.length
    · rw [if_pos ha, List.length_set, ha.1]
    · rw [if_neg ha]
  · rw [if_neg hc] at h
    exact absurd h (by simp)

theorem getCell_setCell (g : OGrid) (i j : Nat) (v : Option Int) (g2 : OGrid)
    (h : setCell g i j v = some g2) (a b : Nat) :
    getCell g2 a b = if a = i ∧ b = j then v else getCell g a b := by
  unfold setCell at h
  by_cases hc : i < g.length ∧ j < (g.getD i []).length
  · rw [if_pos hc] at h
    injection h with h
    subst h
    unfold getCell
    rw [getD_set_list]
    by_cases ha : a = i
    · subst ha
      rw [if_pos ⟨rfl, hc.1⟩, getD_set_list]
      by_cases hb : b = j
      · subst hb
        rw [if_pos ⟨rfl, hc.2⟩, if_pos ⟨rfl, rfl⟩]
      · rw [if_neg (fun hh => hb hh.1), if_neg (fun hh => hb hh.2)]
    · rw [if_neg (fun hh => ha hh.1), if_neg (fun hh => ha hh.1)]
  · rw [if_neg hc] at h
    exact absurd h (by simp)

theorem scatterZero (O : List (Nat × Nat)) :
    ∀ g0 : OGrid, (∀ p ∈ O, p.1 < g0.length ∧ p.2 < (g0.getD p.1 []).length) →
    ∃ g, O.foldlM (fun g p => setCell g p.1 p.2 (some 0)) g0 = some g ∧
      g.length = g0.length ∧ (∀ a, (g.getD a []).length = (g0.getD a []).length) ∧
      ∀ a b, getCell g a b = if (a, b) ∈ O then some 0 else getCell g0 a b := by
  induction O with
  | nil =>
    intro g0 _
    exact ⟨g0, rfl, rfl, fun a => rfl, fun a b => by simp⟩
  | cons p O ih =>
    intro g0 hin
    have hp := hin p (List.mem_cons_self _ _)
    have hset := setCell_some g0 p.1 p.2 (some 0) hp.1 hp.2
    have hdims := setCell_dims g0 p.1 p.2 (some 0) _ hset
    have hin1 : ∀ q ∈ O, q.1 < (g0.set p.1 ((g0.getD p.1 []).set p.2 (some 0))).length ∧
        q.2 < ((g0.set p.1 ((g0.getD p.1 []).set p.2 (some 0))).getD q.1 []).length := by
      intro q hq
      rw [hdims.1, hdims.2 q.1]
      exact hin q (List.mem_cons_of_mem _ hq)
    obtain ⟨g, hfold, hlen, hrows, hcell⟩ := ih _ hin1
    refine ⟨g, ?_, by rw [hlen, hdims.1], fun a => by rw [hrows a, hdims.2 a], ?_⟩
    · rw [List.foldlM_cons, hset]
      simp only [Option.bind_eq_bind, Option.some_bind]
      exact hfold
    · intro a b
      rw [hcell a b]
      have hc0 := getCell_setCell g0 p.1 p.2 (some 0) _ hset a b
      by_cases hO : (a, b) ∈ O
      · rw [if_pos hO, if_pos (List.mem_cons_of_mem _ hO)]
      · rw [if_neg hO, hc0]
        by_cases hpe : (a, b) = p
        · rw [if_pos (by rw [Prod.ext_iff] at hpe; exact hpe)]
          rw [if_pos (by rw [hpe]; exact List.mem_cons_self _ _)]
        · rw [if_neg (fun hh => hpe (by rw [Prod.ext_iff]; exact hh))]
          rw [if_neg (fun hh => by
            rcases List.mem_cons.mp hh with he | hm
            · exact hpe he
            · exact hO hm)]

theorem rebuildLoop_some (preds : List Int) (pos : List (Nat × Nat)) (g0 : OGrid)
    (hin : ∀ q ∈ pos, q.1 < g0.length ∧ q.2 < (g0.getD q.1 []).length) :
    ∀ n : Nat, n ≤ pos.length →
    ∃ g, (List.range n).foldlM
        (fun g i =>
          match (pos[i]?) with
          | none => none
          | some p => setCell g p.1 p.2 (some (preds.getD i 0))) g0 = some g ∧
      g.length = g0.length ∧ (∀ a, (g.getD a []).length = (g0.getD a []).length) := by
  intro n
  induction n with
  | zero =>
    intro _
    exact ⟨g0, rfl, rfl, fun a => rfl⟩
  | succ n ih =>
    intro hn
    obtain ⟨g, hfold, hlen, hrows⟩ := ih (by omega)
    have hnp : n < pos.length := by omega
    have hposn : (pos[n]?) = some (pos.getD n (0, 0)) := by
      rw [List.getElem?_eq_getElem hnp, List.getD_eq_getElem _ _ hnp]
    have hmem : pos.getD n (0, 0) ∈ pos := by
      rw [List.getD_eq_getElem _ _ hnp]
      exact List.getElem_mem hnp
    have hbnd := hin _ hmem
    have hset := setCell_some g (pos.getD n (0, 0)).1 (pos.getD n (0, 0)).2
      (some (preds.getD n 0)) (by rw [hlen]; exact hbnd.1)
      (by rw [hrows]; exact hbnd.2)
    have hdims := setCell_dims g _ _ _ _ hset
    refine ⟨_, ?_, by rw [hdims.1, hlen], fun a => by rw [hdims.2 a, hrows a]⟩
    rw [List.range_succ, List.foldlM_append, hfold]
    simp only [Option.bind_eq_bind, Option.some_bind, List.foldlM_cons, List.foldlM_nil]
    rw [hposn]
    simp only [hset, Option.bind_eq_bind, Option.some_bind, Option.pure_def]

theorem rebuildLoop_scatter (preds : List Int) (pos : List (Nat × Nat))
    (f : Nat × Nat → Int)
    (hval : ∀ i, i < preds.length → preds.getD i 0 = f (pos.getD i (0, 0)))
    (g0 : OGrid)
    (hin : ∀ q ∈ pos, q.1 < g0.length ∧ q.2 < (g0.getD q.1 []).length) :
    ∀ n : Nat, n ≤ pos.length → n ≤ preds.length →
    ∃ g, (List.range n).foldlM
        (fun g i =>
          match (pos[i]?) with
          | none => none
          | some p => setCell g p.1 p.2 (some (preds.getD i 0))) g0 = some g ∧
      g.length = g0.length ∧ (∀ a, (g.getD a []).length = (g0.getD a []).length) ∧
      ∀ a b, getCell g a b =
        if (a, b) ∈ pos.take n then some (f (a, b)) else getCell g0 a b := by
  intro n
  induction n with
  | zero =>
    intro _ _
    exact ⟨g0, rfl, rfl, fun a => rfl, fun a b => by simp⟩
  | succ n ih =>
    intro hn hn2
    obtain ⟨g, hfold, hlen, hrows, hcell⟩ := ih (by omega) (by omega)
    have hnp : n < pos.length := by omega
    have hposn : (pos[n]?) = some (pos.getD n (0, 0)) := by
      rw [List.getElem?_eq_getElem hnp, List.getD_eq_getElem _ _ hnp]
    have hmem : pos.getD n (0, 0) ∈ pos := by
      rw [List.getD_eq_getElem _ _ hnp]
      exact List.getElem_mem hnp
    have hbnd := hin _ hmem
    have hset := setCell_some g (pos.getD n (0, 0)).1 (pos.getD n (0, 0)).2
      (some (preds.getD n 0)) (by rw [hlen]; exact hbnd.1)
      (by rw [hrows]; exact hbnd.2)
    have hdims := setCell_dims g _ _ _ _ hset
    refine ⟨_, ?_, by rw [hdims.1, hlen], fun a => by rw [hdims.2 a, hrows a], ?_⟩
    · rw [List.range_succ, List.foldlM_append, hfold]
      simp only [Option.bind_eq_bind, Option.some_bind, List.foldlM_cons, List.foldlM_nil]
      rw [hposn]
      simp only [hset, Option.bind_eq_bind, Option.some_bind, Option.pure_def]
    · intro a b
      have hc0 := getCell_setCell g (pos.getD n (0, 0)).1 (pos.getD n (0, 0)).2
        (some (preds.getD n 0)) _ hset a b
      rw [hc0]
      have htake : pos.take (n + 1) = pos.take n ++ [pos.getD n (0, 0)] := by
        rw [List.take_succ, List.getElem?_eq_getElem hnp]
        rw [List.getD_eq_getElem _ _ hnp]
        rfl
      by_cases hpe : a = (pos.getD n (0, 0)).1 ∧ b = (pos.getD n (0, 0)).2
      · rw [if_pos hpe]
        have habp : (a, b) = pos.getD n (0, 0) := by
          rw [Prod.ext_iff]
          exact hpe
        rw [if_pos (by
          rw [htake, List.mem_append]
          right
          rw [habp]
          exact List.mem_cons_self _ _)]
        rw [hval n (by omega), ← habp]
      · rw [if_neg hpe, hcell a b]
        have hmemiff : ((a, b) ∈ pos.take (n + 1)) ↔ ((a, b) ∈ pos.take n) := by
          rw [htake, List.mem_append]
          constructor
          · intro h
            rcases h with h | h
            · exact h
            · exfalso
              rcases List.mem_cons.mp h with he | hm
              · exact hpe (by rw [Prod.ext_iff] at he; exact he)
              · exact absurd hm (List.not_mem_nil _)
          · intro h
            exact Or.inl h
        by_cases hm : (a, b) ∈ pos.take n
        · rw [if_pos hm, if_pos (hmemiff.mpr hm)]
        · rw [if_neg hm, if_neg (fun hh => hm (hmemiff.mp hh))]

theorem mem_kept (X : Grid) (O : List (Nat × Nat)) (p : Nat × Nat) :
    p ∈ (copy_without_outlier X O).2 ↔ p.1 < X.length ∧ p.2 < cols X ∧ p ∉ O := by
  show p ∈ ((List.range X.length).flatMap
      (fun i => (List.range (cols X)).map (fun j => (i, j)))).filter
      (fun q => !decide (q ∈ O)) ↔ _
  rw [List.mem_filter, List.mem_flatMap]
  constructor
  · rintro ⟨⟨a, ha, hp⟩, hd⟩
    rw [List.mem_range] at ha
    rw [List.mem_map] at hp
    obtain ⟨b, hb, hpb⟩ := hp
    rw [List.mem_range] at hb
    rw [Bool.not_eq_true', decide_eq_false_iff_not] at hd
    refine ⟨?_, ?_, hd⟩
    · rw [← hpb]; exact ha
    · rw [← hpb]; exact hb
  · rintro ⟨h1, h2, h3⟩
    refine ⟨⟨p.1, by rw [List.mem_range]; exact h1, ?_⟩, ?_⟩
    · rw [List.mem_map]
      exact ⟨p.2, by rw [List.mem_range]; exact h2, Prod.mk.eta⟩
    · rw [Bool.not_eq_true', decide_eq_false_iff_not]
      exact h3

/-- C3: for every rectangular grid X and every set O of in-grid outlier
positions, rebuilding from the outputs of copy_without_outlier with the same O
and the shape of X yields a grid equal to X at every non-outlier position and 0
at every outlier position. -/
theorem outlier_roundtrip (X : Grid) (O : List (Nat × Nat))
    (hrect : rect X)
    (hO : ∀ p ∈ O, p.1 < X.length ∧ p.2 < cols X) :
    ∃ g, rebuild_data_with_outliers (copy_without_outlier X O).1
        (copy_without_outlier X O).2 O X.length (cols X) = some g ∧
      ∀ i j, i < X.length → j < cols X →
        getCell g i j = if (i, j) ∈ O then some 0
          else some ((X.getD i []).getD j 0) := by
  set f : Nat × Nat → Int := fun p => (X.getD p.1 []).getD p.2 0 with hf
  set kept := (copy_without_outlier X O).2 with hkept
  have hvals : (copy_without_outlier X O).1 = kept.map f := rfl
  have hvlen : (copy_without_outlier X O).1.length = kept.length := by
    rw [hvals, List.length_map]
  set init : OGrid := List.replicate X.length (List.replicate (cols X) none) with hinit
  have hinitlen : init.length = X.length := List.length_replicate _ _
  have hinitrow : ∀ a, a < X.length → (init.getD a []).length = cols X := by
    intro a ha
    rw [hinit, getD_replicate_lt _ _ _ _ ha, List.length_replicate]
  have hin : ∀ q ∈ kept, q.1 < init.length ∧ q.2 < (init.getD q.1 []).length := by
    intro q hq
    rw [hkept, mem_kept] at hq
    rw [hinitlen, hinitrow q.1 hq.1]
    exact ⟨hq.1, hq.2.1⟩
  have hval : ∀ i, i < (copy_without_outlier X O).1.length →
      (copy_without_outlier X O).1.getD i 0 = f (kept.getD i (0, 0)) := by
    intro i hi
    have hik : i < kept.length := by rw [← hvlen]; exact hi
    rw [hvals, getD_map_lt _ _ _ _ hik, List.getD_eq_getElem _ _ hik]
  obtain ⟨g1, hfold, hlen1, hrows1, hcell1⟩ :=
    rebuildLoop_scatter (copy_without_outlier X O).1 kept f hval init hin
      (copy_without_outlier X O).1.length (by rw [hvlen]) (le_refl _)
  have hinO : ∀ p ∈ O, p.1 < g1.length ∧ p.2 < (g1.getD p.1 []).length := by
    intro p hp
    rw [hlen1, hrows1 p.1, hinitlen, hinitrow p.1 (hO p hp).1]
    exact ⟨(hO p hp).1, (hO p hp).2⟩
  obtain ⟨g, hfold2, hlen2, hrows2, hcell2⟩ := scatterZero O g1 hinO
  refine ⟨g, ?_, ?_⟩
  · simp only [rebuild_data_with_outliers]
    rw [hfold]
    exact hfold2
  · intro i j hi hj
    rw [hcell2 i j]
    by_cases hij : (i, j) ∈ O
    · rw [if_pos hij, if_pos hij]
    · rw [if_neg hij, if_neg hij, hcell1 i j]
      have htl : kept.take (copy_without_outlier X O).1.length = kept := by
        rw [hvlen]
        exact List.take_length kept
      rw [htl]
      rw [if_pos (by
        rw [hkept, mem_kept]
        exact ⟨hi, hj, hij⟩)]

/-- C3 witness: the round-trip theorem applied at X = [[1,2],[3,4]] with the
outlier set containing position (0,1). -/
theorem outlier_roundtrip_witness :
    rect ([[1, 2], [3, 4]] : Grid) ∧
    (∀ p ∈ [((0 : Nat), (1 : Nat))], p.1 < ([[1, 2], [3, 4]] : Grid).length ∧
      p.2 < cols ([[1, 2], [3, 4]] : Grid)) ∧
    ∃ g, rebuild_data_with_outliers (copy_without_outlier [[1, 2], [3, 4]] [(0, 1)]).1
        (copy_without_outlier [[1, 2], [3, 4]] [(0, 1)]).2 [(0, 1)]
        ([[1, 2], [3, 4]] : Grid).length (cols ([[1, 2], [3, 4]] : Grid)) = some g ∧
      ∀ i j, i < ([[1, 2], [3, 4]] : Grid).length → j < cols ([[1, 2], [3, 4]] : Grid) →
        getCell g i j = if (i, j) ∈ [((0 : Nat), (1 : Nat))] then some 0
          else some ((([[1, 2], [3, 4]] : Grid).getD i []).getD j 0) :=
  ⟨by decide, by decide,
    outlier_roundtrip [[1, 2], [3, 4]] [(0, 1)] (by decide) (by decide)⟩

/-- C10: in rebuild_data_with_outliers, outlier positions take precedence over
retained-sample positions: for every call with in-grid positions, every
position listed in outlier_pos holds 0 in the returned grid, even when that
position also occurs in the position index with a nonzero sample value, because
the outlier zero-writes are applied after all sample writes. -/
theorem rebuild_outlier_precedence (preds : List Int) (pos O : List (Nat × Nat)) (r c : Nat)
    (hlen : preds.length ≤ pos.length)
    (hpos : ∀ p ∈ pos, p.1 < r ∧ p.2 < c)
    (hO : ∀ p ∈ O, p.1 < r ∧ p.2 < c) :
    ∃ g, rebuild_data_with_outliers preds pos O r c = some g ∧
      ∀ p ∈ O, getCell g p.1 p.2 = some 0 := by
  set init : OGrid := List.replicate r (List.replicate c none) with hinit
  have hinitlen : init.length = r := List.length_replicate _ _
  have hinitrow : ∀ a, a < r → (init.getD a []).length = c := by
    intro a ha
    rw [hinit, getD_replicate_lt _ _ _ _ ha, List.length_replicate]
  have hin : ∀ q ∈ pos, q.1 < init.length ∧ q.2 < (init.getD q.1 []).length := by
    intro q hq
    rw [hinitlen, hinitrow q.1 (hpos q hq).1]
    exact hpos q hq
  obtain ⟨g1, hfold, hlen1, hrows1⟩ := rebuildLoop_some preds pos init hin preds.length hlen
  have hinO : ∀ p ∈ O, p.1 < g1.length ∧ p.2 < (g1.getD p.1 []).length := by
    intro p hp
    rw [hlen1, hrows1 p.1, hinitlen, hinitrow p.1 (hO p hp).1]
    exact hO p hp
  obtain ⟨g, hfold2, _, _, hcell2⟩ := scatterZero O g1 hinO
  refine ⟨g, ?_, ?_⟩
  · simp only [rebuild_data_with_outliers]
    rw [hfold]
    exact hfold2
  · intro p hp
    rw [hcell2 p.1 p.2, Prod.mk.eta, if_pos hp]

/-- C10 witness: the precedence theorem applied at a call where the single
outlier position coincides with a retained-sample position carrying the
nonzero value 5; the rebuilt cell still holds 0. -/
theorem rebuild_outlier_precedence_witness :
    ([5] : List Int).length ≤ ([((0 : Nat), (0 : Nat))] : List (Nat × Nat)).length ∧
    (∀ p ∈ [((0 : Nat), (0 : Nat))], p.1 < 1 ∧ p.2 < 1) ∧
    ∃ g, rebuild_data_with_outliers [5] [(0, 0)] [(0, 0)] 1 1 = some g ∧
      ∀ p ∈ [((0 : Nat), (0 : Nat))], getCell g p.1 p.2 = some 0 :=
  ⟨by decide, by decide,
    rebuild_outlier_precedence [5] [(0, 0)] [(0, 0)] 1 1 (by decide) (by decide) (by decide)⟩

theorem trainCount_one (cnt : Nat) : trainCount cnt 1 = cnt := by
  unfold trainCount
  rw [mul_one, Int.floor_natCast, Int.toNat_natCast]

theorem trainCount_le (cnt : Nat) (ts : ℚ) (hts0 : 0 ≤ ts) (hts1 : ts ≤ 1) :
    trainCount cnt ts ≤ cnt := by
  unfold trainCount
  have h1 : (cnt : ℚ) * ts ≤ (cnt : ℚ) := by
    calc (cnt : ℚ) * ts ≤ (cnt : ℚ) * 1 :=
      mul_le_mul_of_nonneg_left hts1 (by positivity)
    _ = (cnt : ℚ) := mul_one _
  have h2 : ⌊(cnt : ℚ) * ts⌋ ≤ ⌊(cnt : ℚ)⌋ := Int.floor_le_floor h1
  rw [Int.floor_natCast] at h2
  omega

theorem mapM_getElem_some {α : Type} (x : List α) (idx : List Nat)
    (h : ∀ k ∈ idx, k < x.length) :
    ∃ rows, idx.mapM (fun k => x[k]?) = some rows ∧ rows.length = idx.length := by
  induction idx with
  | nil => exact ⟨[], rfl, rfl⟩
  | cons k idx ih =>
    obtain ⟨rows, hrows, hlen⟩ := ih (fun q hq => h q (List.mem_cons_of_mem _ hq))
    have hk : k < x.length := h k (List.mem_cons_self _ _)
    refine ⟨x[k] :: rows, ?_, by simp [hlen]⟩
    rw [List.mapM_cons, List.getElem?_eq_getElem hk, hrows]
    rfl

theorem takeRows_some (X : NArr) (idx : List Nat) (h : ∀ k ∈ idx, k < X.rows.length) :
    ∃ Y, takeRows X idx = some Y ∧ Y.width = X.width ∧ Y.rows.length = idx.length := by
  obtain ⟨rows, hrows, hlen⟩ := mapM_getElem_some X.rows idx h
  refine ⟨⟨X.width, rows⟩, ?_, rfl, hlen⟩
  unfold takeRows
  rw [hrows]

theorem vstack_eq (a b : NArr) (h : a.width = b.width) :
    vstack a b = some ⟨a.width, a.rows ++ b.rows⟩ := by
  unfold vstack
  rw [if_pos h]

theorem splitStep_spec (X : NArr) (count argsortL : List Nat) (ts : ℚ)
    (xtr xte : NArr) (ytr yte : List Nat) (s cluster : Nat)
    (hw1 : xtr.width = X.width) (hw2 : xte.width = X.width)
    (hcl : cluster < count.length)
    (hmem : ∀ k ∈ argsortL, k < X.rows.length) :
    ∃ trRows teRows,
      splitStep X count argsortL ts (xtr, xte, ytr, yte, s) cluster =
        some (⟨X.width, xtr.rows ++ trRows⟩, ⟨X.width, xte.rows ++ teRows⟩,
          ytr ++ List.replicate (trainCount (count.getD cluster 0) ts) cluster,
          yte ++ List.replicate
            (count.getD cluster 0 - trainCount (count.getD cluster 0) ts) cluster,
          s + count.getD cluster 0) ∧
      trRows.length = ((argsortL.drop s).take (trainCount (count.getD cluster 0) ts)).length ∧
      teRows.length = ((argsortL.drop (s + trainCount (count.getD cluster 0) ts)).take
        (count.getD cluster 0 - trainCount (count.getD cluster 0) ts)).length := by
  have hcnt : (count[cluster]?) = some (count.getD cluster 0) := by
    rw [List.getElem?_eq_getElem hcl, List.getD_eq_getElem _ _ hcl]
  have htr := takeRows_some X ((argsortL.drop s).take (trainCount (count.getD cluster 0) ts))
    (fun k hk => hmem k (List.mem_of_mem_drop (List.mem_of_mem_take hk)))
  obtain ⟨Ytr, hYtr, hYtrw, hYtrlen⟩ := htr
  have hte := takeRows_some X ((argsortL.drop (s + trainCount (count.getD cluster 0) ts)).take
    (count.getD cluster 0 - trainCount (count.getD cluster 0) ts))
    (fun k hk => hmem k (List.mem_of_mem_drop (List.mem_of_mem_take hk)))
  obtain ⟨Yte, hYte, hYtew, hYtelen⟩ := hte
  have hv1 := vstack_eq xtr Ytr (by rw [hw1, hYtrw])
  have hv2 := vstack_eq xte Yte (by rw [hw2, hYtew])
  refine ⟨Ytr.rows, Yte.rows, ?_, by rw [hYtrlen], by rw [hYtelen]⟩
  simp only [splitStep, hcnt, hYtr, hYte, hv1, hv2, hw1, hw2]

theorem splitLoop_spec (X : NArr) (count argsortL : List Nat) (ts : ℚ)
    (hts0 : 0 ≤ ts) (hts1 : ts ≤ 1)
    (hmem : ∀ k ∈ argsortL, k < X.rows.length) :
    ∀ labels : List Nat, ∀ xtr xte : NArr, ∀ ytr yte : List Nat, ∀ s : Nat,
    xtr.width = X.width → xte.width = X.width →
    (∀ cl ∈ labels, cl < count.length) →
    s + (labels.map (fun cl => count.getD cl 0)).sum ≤ argsortL.length →
    ∃ xtr2 xte2 ytr2 yte2,
      labels.foldlM (splitStep X count argsortL ts) (xtr, xte, ytr, yte, s) =
        some (xtr2, xte2, ytr2, yte2, s + (labels.map (fun cl => count.getD cl 0)).sum) ∧
      xtr2.width = X.width ∧ xte2.width = X.width ∧
      xtr2.rows.length = xtr.rows.length +
        (labels.map (fun cl => trainCount (count.getD cl 0) ts)).sum ∧
      xte2.rows.length = xte.rows.length +
        (labels.map (fun cl => count.getD cl 0 - trainCount (count.getD cl 0) ts)).sum ∧
      ytr2 = ytr ++ labels.flatMap
        (fun cl => List.replicate (trainCount (count.getD cl 0) ts) cl) ∧
      yte2 = yte ++ labels.flatMap
        (fun cl => List.replicate (count.getD cl 0 - trainCount (count.getD cl 0) ts) cl) := by
  intro labels
  induction labels with
  | nil =>
    intro xtr xte ytr yte s hw1 hw2 _ _
    exact ⟨xtr, xte, ytr, yte, by simp, hw1, hw2, by simp, by simp, by simp, by simp⟩
  | cons cl labels ih =>
    intro xtr xte ytr yte s hw1 hw2 hcl hbound
    have hclh : cl < count.length := hcl cl (List.mem_cons_self _ _)
    obtain ⟨trRows, teRows, hstep, htrlen, htelen⟩ :=
      splitStep_spec X count argsortL ts xtr xte ytr yte s cl hw1 hw2 hclh hmem
    set cnt := count.getD cl 0 with hcnt
    set idx := trainCount cnt ts with hidx
    have hidxle : idx ≤ cnt := trainCount_le cnt ts hts0 hts1
    have hsumcons : ((cl :: labels).map (fun cl => count.getD cl 0)).sum =
        cnt + (labels.map (fun cl => count.getD cl 0)).sum := by
      rw [List.map_cons, List.sum_cons]
    have hscnt : s + cnt + (labels.map (fun cl => count.getD cl 0)).sum ≤ argsortL.length := by
      rw [hsumcons] at hbound
      omega
    have htrlen2 : trRows.length = idx := by
      rw [htrlen, List.length_take, List.length_drop]
      have : cnt + s ≤ argsortL.length := by omega
      omega
  -- test slice is exact as well
    have htelen2 : teRows.length = cnt - idx := by
      rw [htelen, List.length_take, List.length_drop]
      have : s + cnt ≤ argsortL.length := by omega
      omega
    obtain ⟨xtr2, xte2, ytr2, yte2, hfold, hw1b, hw2b, hx1, hx2, hy1, hy2⟩ :=
      ih ⟨X.width, xtr.rows ++ trRows⟩ ⟨X.width, xte.rows ++ teRows⟩
        (ytr ++ List.replicate idx cl) (yte ++ List.replicate (cnt - idx) cl) (s + cnt)
        rfl rfl (fun q hq => hcl q (List.mem_cons_of_mem _ hq)) hscnt
    refine ⟨xtr2, xte2, ytr2, yte2, ?_, hw1b, hw2b, ?_, ?_, ?_, ?_⟩
    · rw [List.foldlM_cons, hstep]
      simp only [Option.bind_eq_bind, Option.some_bind]
      rw [hfold, hsumcons]
      have : s + cnt + (labels.map (fun cl => count.getD cl 0)).sum =
          s + (cnt + (labels.map (fun cl => count.getD cl 0)).sum) := by omega
      rw [this]
    · rw [hx1]
      have hproj : ({ width := X.width, rows := xtr.rows ++ trRows } : NArr).rows
          = xtr.rows ++ trRows := rfl
      rw [hproj, List.length_append, htrlen2, List.map_cons, List.sum_cons]
      have hidcl : trainCount (count.getD cl 0) ts = idx := rfl
      omega
    · rw [hx2]
      have hproj : ({ width := X.width, rows := xte.rows ++ teRows } : NArr).rows
          = xte.rows ++ teRows := rfl
      rw [hproj, List.length_append, htelen2, List.map_cons, List.sum_cons]
      have hidcl : trainCount (count.getD cl 0) ts = idx := rfl
      have hcntcl : count.getD cl 0 = cnt := rfl
      omega
    · rw [hy1, List.flatMap_cons, List.append_assoc]
    · rw [hy2, List.flatMap_cons, List.append_assoc]

theorem splitLoop_some (X : NArr) (count argsortL : List Nat) (ts : ℚ)
    (hmem : ∀ k ∈ argsortL, k < X.rows.length) :
    ∀ labels : List Nat, ∀ xtr xte : NArr, ∀ ytr yte : List Nat, ∀ s : Nat,
    xtr.width = X.width → xte.width = X.width →
    (∀ cl ∈ labels, cl < count.length) →
    ∃ res, labels.foldlM (splitStep X count argsortL ts) (xtr, xte, ytr, yte, s) = some res := by
  intro labels
  induction labels with
  | nil =>
    intro xtr xte ytr yte s _ _ _
    exact ⟨(xtr, xte, ytr, yte, s), rfl⟩
  | cons cl labels ih =>
    intro xtr xte ytr yte s hw1 hw2 hcl
    obtain ⟨trRows, teRows, hstep, _, _⟩ :=
      splitStep_spec X count argsortL ts xtr xte ytr yte s cl hw1 hw2
        (hcl cl (List.mem_cons_self _ _)) hmem
    obtain ⟨res, hres⟩ := ih ⟨X.width, xtr.rows ++ trRows⟩ ⟨X.width, xte.rows ++ teRows⟩
      (ytr ++ List.replicate (trainCount (count.getD cl 0) ts) cl)
      (yte ++ List.replicate (count.getD cl 0 - trainCount (count.getD cl 0) ts) cl)
      (s + count.getD cl 0) rfl rfl (fun q hq => hcl q (List.mem_cons_of_mem _ hq))
    refine ⟨res, ?_⟩
    rw [List.foldlM_cons, hstep]
    simp only [Option.bind_eq_bind, Option.some_bind]
    exact hres

theorem count_flatMap_replicate (f : Nat → Nat) (cl : Nat) :
    ∀ labels : List Nat, labels.Nodup → cl ∈ labels →
    (labels.flatMap (fun c2 => List.replicate (f c2) c2)).count cl = f cl := by
  intro labels
  induction labels with
  | nil => intro _ h; cases h
  | cons a labels ih =>
    intro hnd hcl
    rw [List.flatMap_cons, List.count_append]
    have hand := List.nodup_cons.mp hnd
    rcases List.mem_cons.mp hcl with he | hm
    · subst he
      have hz : (labels.flatMap (fun c2 => List.replicate (f c2) c2)).count cl = 0 := by
        rw [List.count_eq_zero]
        intro hc
        rw [List.mem_flatMap] at hc
        obtain ⟨b, hb, hab⟩ := hc
        rw [← List.eq_of_mem_replicate hab] at hb
        exact hand.1 hb
      rw [hz, List.count_replicate, if_pos (beq_self_eq_true cl)]
      omega
    · have hne : a ≠ cl := fun he2 => hand.1 (he2 ▸ hm)
      rw [List.count_replicate, if_neg (by
        intro hc
        exact hne (beq_iff_eq.mp hc)), ih hand.2 hm]
      omega

theorem length_flatMap_replicate (f : Nat → Nat) (labels : List Nat) :
    (labels.flatMap (fun c2 => List.replicate (f c2) c2)).length =
      (labels.map f).sum := by
  induction labels with
  | nil => rfl
  | cons a labels ih =>
    rw [List.flatMap_cons, List.length_append, List.length_replicate, ih,
      List.map_cons, List.sum_cons]

/-- C7 (amended): when the two np.empty(size) seeds are given the empty 2-D
shape (0, w) — so that they contribute no garbage rows — a split call whose
per-class counts sum to the shuffled array length N returns train and test
feature stacks holding exactly N rows in total, with each class contributing
int(count * train_split) rows (and y entries) to train and the remainder to
test.  With the 1-D seed shape (w,) each stack additionally starts with one
uninitialised np.empty row, so the totals exceed N by 2. -/
theorem split_complete (X : NArr) (count labels argsortL : List Nat) (ts : ℚ)
    (hnd : labels.Nodup)
    (hcount : ∀ cl ∈ labels, cl < count.length)
    (hsum : (labels.map (fun cl => count.getD cl 0)).sum = X.rows.length)
    (halen : argsortL.length = X.rows.length)
    (hamem : ∀ k ∈ argsortL, k < X.rows.length)
    (hts0 : 0 ≤ ts) (hts1 : ts ≤ 1) :
    ∃ xtr xte ytr yte,
      split_x_train_test X count labels argsortL [0, X.width] ts =
        some (xtr, xte, ytr, yte) ∧
      xtr.rows.length + xte.rows.length = X.rows.length ∧
      xtr.rows.length = ytr.length ∧ xte.rows.length = yte.length ∧
      ∀ cl ∈ labels,
        ytr.count cl = trainCount (count.getD cl 0) ts ∧
        yte.count cl = count.getD cl 0 - trainCount (count.getD cl 0) ts := by
  have hbound : 0 + (labels.map (fun cl => count.getD cl 0)).sum ≤ argsortL.length := by
    omega
  obtain ⟨xtr2, xte2, ytr2, yte2, hfold, _, _, hx1, hx2, hy1, hy2⟩ :=
    splitLoop_spec X count argsortL ts hts0 hts1 hamem labels
      ⟨X.width, []⟩ ⟨X.width, []⟩ [] [] 0 rfl rfl hcount hbound
  have hempty : npEmpty [0, X.width] = some ⟨X.width, ([] : List Row)⟩ := rfl
  refine ⟨xtr2, xte2, ytr2, yte2, ?_, ?_, ?_, ?_, ?_⟩
  · simp only [split_x_train_test, hempty]
    rw [hfold]
  · have hptw : ∀ cl ∈ labels,
        trainCount (count.getD cl 0) ts +
          (count.getD cl 0 - trainCount (count.getD cl 0) ts) = count.getD cl 0 := by
      intro cl _
      have := trainCount_le (count.getD cl 0) ts hts0 hts1
      omega
    have hsum2 : (labels.map (fun cl => trainCount (count.getD cl 0) ts)).sum +
        (labels.map (fun cl => count.getD cl 0 - trainCount (count.getD cl 0) ts)).sum =
        (labels.map (fun cl => count.getD cl 0)).sum := by
      rw [← List.sum_map_add]
      exact congrArg List.sum (List.map_congr_left hptw)
    rw [hx1, hx2]
    simp only [List.length_nil]
    omega
  · rw [hx1, hy1, List.nil_append, length_flatMap_replicate]
    simp only [List.length_nil]
    omega
  · rw [hx2, hy2, List.nil_append, length_flatMap_replicate]
    simp only [List.length_nil]
    omega
  · intro cl hcl
    rw [hy1, hy2, List.nil_append, List.nil_append]
    exact ⟨count_flatMap_replicate _ cl labels hnd hcl,
      count_flatMap_replicate _ cl labels hnd hcl⟩

/-- C7 witness: the amended split theorem applied at a concrete call with four
samples of width 2, two classes of two samples each, and train_split = 1. -/
theorem split_complete_witness :
    ([0, 1] : List Nat).Nodup ∧
    (∀ cl ∈ ([0, 1] : List Nat), cl < ([2, 2] : List Nat).length) ∧
    (([0, 1] : List Nat).map (fun cl => ([2, 2] : List Nat).getD cl 0)).sum =
      (⟨2, [[some 10, some 11], [some 20, some 21], [some 30, some 31],
        [some 40, some 41]]⟩ : NArr).rows.length ∧
    ([0, 1, 2, 3] : List Nat).length =
      (⟨2, [[some 10, some 11], [some 20, some 21], [some 30, some 31],
        [some 40, some 41]]⟩ : NArr).rows.length ∧
    (∀ k ∈ ([0, 1, 2, 3] : List Nat),
      k < (⟨2, [[some 10, some 11], [some 20, some 21], [some 30, some 31],
        [some 40, some 41]]⟩ : NArr).rows.length) ∧
    (0 : ℚ) ≤ 1 ∧ (1 : ℚ) ≤ 1 ∧
    ∃ xtr xte ytr yte,
      split_x_train_test ⟨2, [[some 10, some 11], [some 20, some 21], [some 30, some 31],
          [some 40, some 41]]⟩ [2, 2] [0, 1] [0, 1, 2, 3]
          [0, (⟨2, [[some 10, some 11], [some 20, some 21], [some 30, some 31],
            [some 40, some 41]]⟩ : NArr).width] 1 =
        some (xtr, xte, ytr, yte) ∧
      xtr.rows.length + xte.rows.length =
        (⟨2, [[some 10, some 11], [some 20, some 21], [some 30, some 31],
          [some 40, some 41]]⟩ : NArr).rows.length ∧
      xtr.rows.length = ytr.length ∧ xte.rows.length = yte.length ∧
      ∀ cl ∈ ([0, 1] : List Nat),
        ytr.count cl = trainCount (([2, 2] : List Nat).getD cl 0) 1 ∧
        yte.count cl = ([2, 2] : List Nat).getD cl 0 -
          trainCount (([2, 2] : List Nat).getD cl 0) 1 :=
  ⟨by decide, by decide, by decide, by decide, by decide, by norm_num, le_refl 1,
    split_complete ⟨2, [[some 10, some 11], [some 20, some 21], [some 30, some 31],
        [some 40, some 41]]⟩ [2, 2] [0, 1] [0, 1, 2, 3] 1
      (by decide) (by decide) (by decide) (by decide) (by decide) (by norm_num) (le_refl 1)⟩

/-- C7 counterexample: a split call with per-class counts [2,2] summing to the
array length N = 4 and the 1-D seed shape size = (2,), as passed when size is
the feature width: each output stack begins with the np.empty seed row, so the
returned feature stacks hold 5 + 1 = 6 rows, not N = 4. -/
theorem split_complete_cex :
    split_x_train_test ⟨2, [[some 10, some 11], [some 20, some 21], [some 30, some 31],
        [some 40, some 41]]⟩ [2, 2] [0, 1] [0, 1, 2, 3] [2] 1 =
      some (⟨2, [[none, none], [some 10, some 11], [some 20, some 21], [some 30, some 31],
          [some 40, some 41]]⟩, ⟨2, [[none, none]]⟩, [0, 0, 1, 1], []) ∧
    (([0, 1] : List Nat).map (fun cl => ([2, 2] : List Nat).getD cl 0)).sum =
      (⟨2, [[some 10, some 11], [some 20, some 21], [some 30, some 31],
        [some 40, some 41]]⟩ : NArr).rows.length ∧
    ([[none, none], [some 10, some 11], [some 20, some 21], [some 30, some 31],
        [some 40, some 41]] : List Row).length + ([[none, none]] : List Row).length ≠
      (⟨2, [[some 10, some 11], [some 20, some 21], [some 30, some 31],
        [some 40, some 41]]⟩ : NArr).rows.length := by
  refine ⟨?_, by decide, by decide⟩
  simp only [split_x_train_test, npEmpty, List.foldlM_cons, List.foldlM_nil,
    splitStep, trainCount_one]
  decide

/-- C8 counterexample: a split call whose per-class counts [2,2] sum to 4 while
the shuffled array holds 5 rows does not fail: it returns a full result and the
fifth row is silently never assigned to either side. -/
theorem split_size_check_cex :
    split_x_train_test ⟨2, [[some 10, some 11], [some 20, some 21], [some 30, some 31],
        [some 40, some 41], [some 50, some 51]]⟩ [2, 2] [0, 1] [0, 1, 2, 3, 4] [0, 2] 1 =
      some (⟨2, [[some 10, some 11], [some 20, some 21], [some 30, some 31],
          [some 40, some 41]]⟩, ⟨2, []⟩, [0, 0, 1, 1], []) ∧
    (([0, 1] : List Nat).map (fun cl => ([2, 2] : List Nat).getD cl 0)).sum ≠
      (⟨2, [[some 10, some 11], [some 20, some 21], [some 30, some 31],
        [some 40, some 41], [some 50, some 51]]⟩ : NArr).rows.length := by
  refine ⟨?_, by decide⟩
  simp only [split_x_train_test, npEmpty, List.foldlM_cons, List.foldlM_nil,
    splitStep, trainCount_one]
  decide

/-- C8 (amended): split_x_train_test performs no size validation at all: for any
call whose class ids index the count table and whose index list stays in range,
it returns a result even when the per-class counts do not sum to the length of
the array being split — overlong blocks are truncated by slicing and leftover
rows are silently never assigned, rather than any SizeMismatch being raised. -/
theorem split_no_size_check (X : NArr) (count labels argsortL : List Nat) (ts : ℚ)
    (hcount : ∀ cl ∈ labels, cl < count.length)
    (hamem : ∀ k ∈ argsortL, k < X.rows.length)
    (hne : (labels.map (fun cl => count.getD cl 0)).sum ≠ argsortL.length) :
    ∃ res, split_x_train_test X count labels argsortL [0, X.width] ts = some res := by
  obtain ⟨res, hres⟩ := splitLoop_some X count argsortL ts hamem labels
    ⟨X.width, []⟩ ⟨X.width, []⟩ [] [] 0 rfl rfl hcount
  refine ⟨(res.1, res.2.1, res.2.2.1, res.2.2.2.1), ?_⟩
  have hempty : npEmpty [0, X.width] = some ⟨X.width, ([] : List Row)⟩ := rfl
  simp only [split_x_train_test, hempty]
  rw [hres]

/-- C8 witness: the no-validation theorem applied at the call of the
counterexample, whose counts sum to 4 against 5 rows. -/
theorem split_no_size_check_witness :
    (∀ cl ∈ ([0, 1] : List Nat), cl < ([2, 2] : List Nat).length) ∧
    (∀ k ∈ ([0, 1, 2, 3, 4] : List Nat),
      k < (⟨2, [[some 10, some 11], [some 20, some 21], [some 30, some 31],
        [some 40, some 41], [some 50, some 51]]⟩ : NArr).rows.length) ∧
    (([0, 1] : List Nat).map (fun cl => ([2, 2] : List Nat).getD cl 0)).sum ≠
      ([0, 1, 2, 3, 4] : List Nat).length ∧
    ∃ res, split_x_train_test ⟨2, [[some 10, some 11], [some 20, some 21], [some 30, some 31],
        [some 40, some 41], [some 50, some 51]]⟩ [2, 2] [0, 1] [0, 1, 2, 3, 4]
        [0, (⟨2, [[some 10, some 11], [some 20, some 21], [some 30, some 31],
          [some 40, some 41], [some 50, some 51]]⟩ : NArr).width] 1 = some res :=
  ⟨by decide, by decide, by decide,
    split_no_size_check ⟨2, [[some 10, some 11], [some 20, some 21], [some 30, some 31],
        [some 40, some 41], [some 50, some 51]]⟩ [2, 2] [0, 1] [0, 1, 2, 3, 4] 1
      (by decide) (by decide) (by decide)⟩

theorem classIdx_mem_lt (y : List Int) (cl : Int) (k : Nat) (hk : k ∈ classIdx y cl) :
    k < y.length := by
  unfold classIdx at hk
  rw [List.mem_filter, List.mem_range] at hk
  exact hk.1

/-- C9: for every non-empty class list whose classes all occur in y (and with x
at least as long as y so the row selection is defined), calculate_mean_score
returns the unweighted arithmetic mean of the per-class scorer results: if the
scorer returns s(cl) on the subset of class cl, the result is the plain sum of
the s(cl) divided by the number of classes, independent of the class sizes. -/
theorem calculate_mean_score_unweighted {F : Type} (labels : List Int) (x : List F)
    (y : List Int) (score : List F → List Int → ℚ) (s : Int → ℚ)
    (hne : labels ≠ [])
    (hmem : ∀ cl ∈ labels, cl ∈ y)
    (hlen : y.length ≤ x.length)
    (hs : ∀ cl ∈ labels, ∀ xs, (classIdx y cl).mapM (fun k => x[k]?) = some xs →
      score xs ((classIdx y cl).map (fun k => y.getD k 0)) = s cl) :
    calculate_mean_score labels x y score =
      some ((labels.map s).sum / labels.length) := by
  have hfold : ∀ ls : List Int,
      (∀ cl ∈ ls, ∀ xs, (classIdx y cl).mapM (fun k => x[k]?) = some xs →
        score xs ((classIdx y cl).map (fun k => y.getD k 0)) = s cl) →
      ∀ acc : ℚ, ls.foldlM (fun acc cluster =>
        match (classIdx y cluster).mapM (fun k => x[k]?) with
        | none => none
        | some xs =>
          some (acc + score xs ((classIdx y cluster).map (fun k => y.getD k 0))))
        acc = some (acc + (ls.map s).sum) := by
    intro ls
    induction ls with
    | nil =>
      intro _ acc
      simp
    | cons cl ls ih =>
      intro hsl acc
      obtain ⟨xs, hxs, _⟩ := mapM_getElem_some x (classIdx y cl)
        (fun k hk => lt_of_lt_of_le (classIdx_mem_lt y cl k hk) hlen)
      rw [List.foldlM_cons]
      have hbody : (match (classIdx y cl).mapM (fun k => x[k]?) with
          | none => none
          | some xs =>
            some (acc + score xs ((classIdx y cl).map (fun k => y.getD k 0)))) =
          some (acc + s cl) := by
        rw [hxs]
        show some (acc + score xs ((classIdx y cl).map (fun k => y.getD k 0))) =
          some (acc + s cl)
        rw [hsl cl (List.mem_cons_self _ _) xs hxs]
      rw [hbody]
      simp only [Option.bind_eq_bind, Option.some_bind]
      rw [ih (fun q hq => hsl q (List.mem_cons_of_mem _ hq)) (acc + s cl)]
      rw [List.map_cons, List.sum_cons]
      rw [add_assoc]
  unfold calculate_mean_score
  rw [hfold labels hs 0]
  show (if labels.length = 0 then none
    else some ((0 + (labels.map s).sum) / labels.length)) =
    some ((labels.map s).sum / labels.length)
  rw [if_neg (by
    intro hc
    exact hne (List.eq_nil_of_length_eq_zero hc))]
  rw [zero_add]

/-- C9 witness: the mean-score theorem applied with two classes and a constant
scorer returning 7 on every subset. -/
theorem calculate_mean_score_unweighted_witness :
    (([1, 2] : List Int) ≠ []) ∧
    (∀ cl ∈ ([1, 2] : List Int), cl ∈ ([1, 2, 2] : List Int)) ∧
    ([1, 2, 2] : List Int).length ≤ ([10, 20, 30] : List Int).length ∧
    calculate_mean_score [1, 2] ([10, 20, 30] : List Int) [1, 2, 2]
        (fun _ _ => (7 : ℚ)) =
      some ((([1, 2] : List Int).map (fun _ => (7 : ℚ))).sum / ([1, 2] : List Int).length) :=
  ⟨by decide, by decide, by decide,
    calculate_mean_score_unweighted [1, 2] ([10, 20, 30] : List Int) [1, 2, 2]
      (fun _ _ => (7 : ℚ)) (fun _ => (7 : ℚ))
      (by decide) (by decide) (by decide) (fun _ _ _ _ => rfl)⟩

end Tools
